import Mathlib

/-!
Verification of the STXXL I/O statistics subsystem
(`include/stxxl/bits/io/iostats.h`).

The header declares the aggregator class `stats` (counters for read, write,
wait operations, serial and parallel durations), the scoped guard classes
`scoped_read_timer`, `scoped_write_timer`, `scoped_wait_timer`, and the
snapshot value type `stats_data` with field-wise `operator+`/`operator-`.

Machine types are embedded as follows: C++ `unsigned` values are `ℕ`
with arithmetic reduced modulo `2^32`, `int64` is `ℤ`, `double`
timestamps/durations are `ℚ`, `int` active counts are `ℤ`, `bool` is
`Bool`.  The two compile-time toggles `STXXL_IO_STATS` and
`COUNT_WAIT_TIME` are embedded as `Bool` parameters of the hooks.
-/

/-- `2^32`, the modulus of the C++ `unsigned` type. -/
def U32 : ℕ := 4294967296

/-- C++ `unsigned` addition: wraps modulo `2^32`. -/
def addU32 (a b : ℕ) : ℕ := (a + b) % U32

/-- C++ `unsigned` subtraction: wraps modulo `2^32`. -/
def subU32 (a b : ℕ) : ℕ := (a + (U32 - b % U32)) % U32

/-- The aggregator state: the data members of class `stats`
(iostats.h lines 43-56).  The four mutexes have no state content and are
not represented; lock-protected critical sections are embedded as atomic
state transitions. -/
structure stats where
  reads : ℕ
  writes : ℕ
  volume_read : ℤ
  volume_written : ℤ
  t_reads : ℚ
  t_writes : ℚ
  p_reads : ℚ
  p_writes : ℚ
  p_begin_read : ℚ
  p_begin_write : ℚ
  p_ios : ℚ
  p_begin_io : ℚ
  t_waits : ℚ
  p_waits : ℚ
  p_begin_wait : ℚ
  acc_reads : ℤ
  acc_writes : ℤ
  acc_ios : ℤ
  acc_waits : ℤ
  last_reset : ℚ
deriving DecidableEq

/-- Modelled from the spec: the private constructor `stats::stats()` lives in
iostats.cpp, which is not part of the sources; per the spec all counters and
sums start (and are reset to) zero and `last_reset` is stamped with the
current time. -/
def stats.init (now : ℚ) : stats :=
  { reads := 0, writes := 0, volume_read := 0, volume_written := 0
    t_reads := 0, t_writes := 0, p_reads := 0, p_writes := 0
    p_begin_read := 0, p_begin_write := 0, p_ios := 0, p_begin_io := 0
    t_waits := 0, p_waits := 0, p_begin_wait := 0
    acc_reads := 0, acc_writes := 0, acc_ios := 0, acc_waits := 0
    last_reset := now }

/-- Modelled from the spec: the body of `stats::read_started(unsigned size_)`
lives in iostats.cpp, which is not part of the sources.  Per the spec, a
`_started` call adds the byte volume, increments the active count, records
the current timestamp as the parallel-interval begin on a 0→1 transition,
and does the same for the shared combined-I/O active count `acc_ios`.
The completed-operation count is deferred to `_finished`. -/
def stats.read_started (s : stats) (size_ : ℕ) (now : ℚ) : stats :=
  { s with
    volume_read := s.volume_read + (size_ : ℤ)
    acc_reads := s.acc_reads + 1
    p_begin_read := if s.acc_reads = 0 then now else s.p_begin_read
    acc_ios := s.acc_ios + 1
    p_begin_io := if s.acc_ios = 0 then now else s.p_begin_io }

/-- Modelled from the spec: the body of `stats::read_finished()` lives in
iostats.cpp, which is not part of the sources.  Per the spec, a `_finished`
call adds `now - operation_start` to the serial duration, increments the
completed-operation count, decrements the active count, and on a 1→0
transition adds `now - p_begin_read` to the parallel duration; the same
transition rule applies to the shared `acc_ios`/`p_ios` pair.
`op_start` is the start time of the operation being finished. -/
def stats.read_finished (s : stats) (op_start now : ℚ) : stats :=
  { s with
    t_reads := s.t_reads + (now - op_start)
    reads := addU32 s.reads 1
    acc_reads := s.acc_reads - 1
    p_reads := if s.acc_reads - 1 = 0 then s.p_reads + (now - s.p_begin_read) else s.p_reads
    acc_ios := s.acc_ios - 1
    p_ios := if s.acc_ios - 1 = 0 then s.p_ios + (now - s.p_begin_io) else s.p_ios }

/-- Modelled from the spec: the body of `stats::write_started(unsigned size_)`
lives in iostats.cpp, which is not part of the sources; symmetric to
`read_started`. -/
def stats.write_started (s : stats) (size_ : ℕ) (now : ℚ) : stats :=
  { s with
    volume_written := s.volume_written + (size_ : ℤ)
    acc_writes := s.acc_writes + 1
    p_begin_write := if s.acc_writes = 0 then now else s.p_begin_write
    acc_ios := s.acc_ios + 1
    p_begin_io := if s.acc_ios = 0 then now else s.p_begin_io }

/-- Modelled from the spec: the body of `stats::write_finished()` lives in
iostats.cpp, which is not part of the sources; symmetric to
`read_finished`. -/
def stats.write_finished (s : stats) (op_start now : ℚ) : stats :=
  { s with
    t_writes := s.t_writes + (now - op_start)
    writes := addU32 s.writes 1
    acc_writes := s.acc_writes - 1
    p_writes := if s.acc_writes - 1 = 0 then s.p_writes + (now - s.p_begin_write) else s.p_writes
    acc_ios := s.acc_ios - 1
    p_ios := if s.acc_ios - 1 = 0 then s.p_ios + (now - s.p_begin_io) else s.p_ios }

/-- Modelled from the spec: the body of `stats::wait_started()` lives in
iostats.cpp, which is not part of the sources.  Wait accounting is analogous
to read/write but has no byte volume, no completed-operation counter, and
does not touch the combined-I/O pair. -/
def stats.wait_started (s : stats) (now : ℚ) : stats :=
  { s with
    acc_waits := s.acc_waits + 1
    p_begin_wait := if s.acc_waits = 0 then now else s.p_begin_wait }

/-- Modelled from the spec: the body of `stats::wait_finished()` lives in
iostats.cpp, which is not part of the sources. -/
def stats.wait_finished (s : stats) (op_start now : ℚ) : stats :=
  { s with
    t_waits := s.t_waits + (now - op_start)
    acc_waits := s.acc_waits - 1
    p_waits := if s.acc_waits - 1 = 0 then s.p_waits + (now - s.p_begin_wait) else s.p_waits }

/-- Getter `stats::get_reads` (iostats.h line 195). -/
def stats.get_reads (s : stats) : ℕ := s.reads

/-- Getter `stats::get_writes` (iostats.h line 202). -/
def stats.get_writes (s : stats) : ℕ := s.writes

/-- Getter `stats::get_read_volume` (iostats.h line 209). -/
def stats.get_read_volume (s : stats) : ℤ := s.volume_read

/-- Getter `stats::get_written_volume` (iostats.h line 216). -/
def stats.get_written_volume (s : stats) : ℤ := s.volume_written

/-- Getter `stats::get_read_time` (iostats.h line 223). -/
def stats.get_read_time (s : stats) : ℚ := s.t_reads

/-- Getter `stats::get_write_time` (iostats.h line 230). -/
def stats.get_write_time (s : stats) : ℚ := s.t_writes

/-- Getter `stats::get_pread_time` (iostats.h line 237). -/
def stats.get_pread_time (s : stats) : ℚ := s.p_reads

/-- Getter `stats::get_pwrite_time` (iostats.h line 244). -/
def stats.get_pwrite_time (s : stats) : ℚ := s.p_writes

/-- Getter `stats::get_pio_time` (iostats.h line 251). -/
def stats.get_pio_time (s : stats) : ℚ := s.p_ios

/-- Getter `stats::get_io_wait_time` (iostats.h line 261). -/
def stats.get_io_wait_time (s : stats) : ℚ := s.t_waits

/-- Getter `stats::get_last_reset_time` (iostats.h line 268). -/
def stats.get_last_reset_time (s : stats) : ℚ := s.last_reset

/-- One lifecycle notification delivered to the aggregator; finish events
carry the start time of the operation being finished. -/
inductive Event where
  | readStart (size_ : ℕ) (now : ℚ)
  | readFinish (op_start now : ℚ)
  | writeStart (size_ : ℕ) (now : ℚ)
  | writeFinish (op_start now : ℚ)
  | waitStart (now : ℚ)
  | waitFinish (op_start now : ℚ)
deriving DecidableEq

/-- Dispatch one event to the aggregator hooks.  The two `Bool` parameters
embed the compile-time toggles: when `io` is `false` the read/write hooks
are the no-op bodies of iostats.h lines 290-301 (`#if !STXXL_IO_STATS`),
and when `cwt` is `false` the wait hooks are the no-op bodies of lines
302-305 (`#ifndef COUNT_WAIT_TIME`). -/
def applyEvent (io cwt : Bool) (s : stats) : Event → stats
  | .readStart sz t => if io then s.read_started sz t else s
  | .readFinish u t => if io then s.read_finished u t else s
  | .writeStart sz t => if io then s.write_started sz t else s
  | .writeFinish u t => if io then s.write_finished u t else s
  | .waitStart t => if cwt then s.wait_started t else s
  | .waitFinish u t => if cwt then s.wait_finished u t else s

/-- Run a sequence of lifecycle events through the aggregator. -/
def runEvents (io cwt : Bool) (s : stats) : List Event → stats
  | [] => s
  | e :: es => runEvents io cwt (applyEvent io cwt s e) es

/-- Well-formed traces: event timestamps are non-decreasing starting from
`τ`, and every finish event finishes an operation that is actually pending
(its recorded start time is removed from the pending list of its category).
`pr`, `pw`, `pv` are the pending start times of in-flight reads, writes and
waits. -/
def wfEvents (τ : ℚ) (pr pw pv : List ℚ) : List Event → Bool
  | [] => true
  | .readStart _ t :: es => decide (τ ≤ t) && wfEvents t (t :: pr) pw pv es
  | .readFinish u t :: es =>
      decide (τ ≤ t) && decide (u ∈ pr) && wfEvents t (pr.erase u) pw pv es
  | .writeStart _ t :: es => decide (τ ≤ t) && wfEvents t pr (t :: pw) pv es
  | .writeFinish u t :: es =>
      decide (τ ≤ t) && decide (u ∈ pw) && wfEvents t pr (pw.erase u) pv es
  | .waitStart t :: es => decide (τ ≤ t) && wfEvents t pr pw (t :: pv) es
  | .waitFinish u t :: es =>
      decide (τ ≤ t) && decide (u ∈ pv) && wfEvents t pr pw (pv.erase u) es

example : runEvents true true (stats.init 0)
    [.readStart 5 1, .readFinish 1 3] =
    { stats.init 0 with
      reads := 1
      volume_read := 5
      t_reads := 2
      p_reads := 2
      p_ios := 2
      p_begin_read := 1
      p_begin_io := 1 } := by
  norm_num [runEvents, applyEvent, stats.read_started, stats.read_finished,
    stats.init, addU32, U32]

example : wfEvents 0 [] [] [] [.readStart 5 1, .readFinish 1 3] = true := by
  norm_num [wfEvents]

/-- The flag state of `stats::scoped_read_timer` (iostats.h lines 106-149).
When `STXXL_IO_STATS` is 0 the `running` member does not exist; the
disabled method bodies below never touch it, so a dummy value is carried. -/
structure scoped_read_timer where
  running : Bool
deriving DecidableEq

/-- `scoped_read_timer::start(size)` (iostats.h lines 128-138): with
`STXXL_IO_STATS` enabled (`io = true`), if the timer is not running it is
marked running and `read_started(size)` is invoked; the `size_type`
(= `unsigned_type`) argument is implicitly converted to the `unsigned`
parameter of `read_started`, i.e. reduced modulo `2^32`.  With the toggle
disabled the body does nothing.  Returns the new flag state together with
the list of aggregator hook invocations made; the hook timestamps are
supplied by the environment. -/
def scoped_read_timer.start (io : Bool) (g : scoped_read_timer) (size : ℕ)
    (now : ℚ) : scoped_read_timer × List Event :=
  if io then
    if g.running = false then (⟨true⟩, [.readStart (size % U32) now])
    else (g, [])
  else (g, [])

/-- `scoped_read_timer::stop()` (iostats.h lines 140-148): with the toggle
enabled, if the timer is running, `read_finished()` is invoked and the flag
cleared; otherwise nothing happens. -/
def scoped_read_timer.stop (io : Bool) (g : scoped_read_timer)
    (op_start now : ℚ) : scoped_read_timer × List Event :=
  if io then
    if g.running then (⟨false⟩, [.readFinish op_start now]) else (g, [])
  else (g, [])

/-- `scoped_read_timer::scoped_read_timer(size)` (iostats.h lines 115-121):
initializes `running` to `false` and calls `start(size)`. -/
def scoped_read_timer.construct (io : Bool) (size : ℕ) (now : ℚ) :
    scoped_read_timer × List Event :=
  scoped_read_timer.start io ⟨false⟩ size now

/-- `scoped_read_timer::~scoped_read_timer()` (iostats.h lines 123-126):
calls `stop()`. -/
def scoped_read_timer.destruct (io : Bool) (g : scoped_read_timer)
    (op_start now : ℚ) : List Event :=
  (scoped_read_timer.stop io g op_start now).2

/-- The flag state of `stats::scoped_write_timer` (iostats.h lines 61-104). -/
structure scoped_write_timer where
  running : Bool
deriving DecidableEq

/-- `scoped_write_timer::start(size)` (iostats.h lines 83-93); see
`scoped_read_timer.start`. -/
def scoped_write_timer.start (io : Bool) (g : scoped_write_timer) (size : ℕ)
    (now : ℚ) : scoped_write_timer × List Event :=
  if io then
    if g.running = false then (⟨true⟩, [.writeStart (size % U32) now])
    else (g, [])
  else (g, [])

/-- `scoped_write_timer::stop()` (iostats.h lines 95-103). -/
def scoped_write_timer.stop (io : Bool) (g : scoped_write_timer)
    (op_start now : ℚ) : scoped_write_timer × List Event :=
  if io then
    if g.running then (⟨false⟩, [.writeFinish op_start now]) else (g, [])
  else (g, [])

/-- `scoped_write_timer::scoped_write_timer(size)` (iostats.h lines 70-76). -/
def scoped_write_timer.construct (io : Bool) (size : ℕ) (now : ℚ) :
    scoped_write_timer × List Event :=
  scoped_write_timer.start io ⟨false⟩ size now

/-- `scoped_write_timer::~scoped_write_timer()` (iostats.h lines 78-81). -/
def scoped_write_timer.destruct (io : Bool) (g : scoped_write_timer)
    (op_start now : ℚ) : List Event :=
  (scoped_write_timer.stop io g op_start now).2

/-- The flag state of `stats::scoped_wait_timer` (iostats.h lines 151-190),
guarded by `COUNT_WAIT_TIME` instead of `STXXL_IO_STATS`. -/
structure scoped_wait_timer where
  running : Bool
deriving DecidableEq

/-- `scoped_wait_timer::start()` (iostats.h lines 171-179). -/
def scoped_wait_timer.start (cwt : Bool) (g : scoped_wait_timer)
    (now : ℚ) : scoped_wait_timer × List Event :=
  if cwt then
    if g.running = false then (⟨true⟩, [.waitStart now]) else (g, [])
  else (g, [])

/-- `scoped_wait_timer::stop()` (iostats.h lines 181-189). -/
def scoped_wait_timer.stop (cwt : Bool) (g : scoped_wait_timer)
    (op_start now : ℚ) : scoped_wait_timer × List Event :=
  if cwt then
    if g.running then (⟨false⟩, [.waitFinish op_start now]) else (g, [])
  else (g, [])

/-- `scoped_wait_timer::scoped_wait_timer()` (iostats.h lines 158-164). -/
def scoped_wait_timer.construct (cwt : Bool) (now : ℚ) :
    scoped_wait_timer × List Event :=
  scoped_wait_timer.start cwt ⟨false⟩ now

/-- `scoped_wait_timer::~scoped_wait_timer()` (iostats.h lines 166-169). -/
def scoped_wait_timer.destruct (cwt : Bool) (g : scoped_wait_timer)
    (op_start now : ℚ) : List Event :=
  (scoped_wait_timer.stop cwt g op_start now).2

/-- The snapshot value type `stats_data` (iostats.h lines 308-435): eleven
data members, lines 310-316. -/
structure stats_data where
  reads : ℕ
  writes : ℕ
  volume_read : ℤ
  volume_written : ℤ
  t_reads : ℚ
  t_writes : ℚ
  p_reads : ℚ
  p_writes : ℚ
  p_ios : ℚ
  t_wait : ℚ
  elapsed : ℚ
deriving DecidableEq

/-- The default constructor `stats_data::stats_data()` (iostats.h lines
319-331): every field is zero. -/
def stats_data.default : stats_data :=
  { reads := 0, writes := 0, volume_read := 0, volume_written := 0
    t_reads := 0, t_writes := 0, p_reads := 0, p_writes := 0
    p_ios := 0, t_wait := 0, elapsed := 0 }

/-- The constructor `stats_data::stats_data(const stats&)` (iostats.h lines
333-345): copies the aggregator getters and computes
`elapsed = timestamp() - s.get_last_reset_time()`; `now` stands for the
`timestamp()` call. -/
def stats_data.ofStats (s : stats) (now : ℚ) : stats_data :=
  { reads := s.get_reads
    writes := s.get_writes
    volume_read := s.get_read_volume
    volume_written := s.get_written_volume
    t_reads := s.get_read_time
    t_writes := s.get_write_time
    p_reads := s.get_pread_time
    p_writes := s.get_pwrite_time
    p_ios := s.get_pio_time
    t_wait := s.get_io_wait_time
    elapsed := now - s.get_last_reset_time }

/-- `stats_data::operator+` (iostats.h lines 347-362): field-wise sum; the
`unsigned` counters wrap modulo `2^32`. -/
def stats_data.add (a b : stats_data) : stats_data :=
  { reads := addU32 a.reads b.reads
    writes := addU32 a.writes b.writes
    volume_read := a.volume_read + b.volume_read
    volume_written := a.volume_written + b.volume_written
    t_reads := a.t_reads + b.t_reads
    t_writes := a.t_writes + b.t_writes
    p_reads := a.p_reads + b.p_reads
    p_writes := a.p_writes + b.p_writes
    p_ios := a.p_ios + b.p_ios
    t_wait := a.t_wait + b.t_wait
    elapsed := a.elapsed + b.elapsed }

instance : Add stats_data := ⟨stats_data.add⟩

/-- `stats_data::operator-` (iostats.h lines 364-379): field-wise
difference; the `unsigned` counters wrap modulo `2^32`. -/
def stats_data.sub (a b : stats_data) : stats_data :=
  { reads := subU32 a.reads b.reads
    writes := subU32 a.writes b.writes
    volume_read := a.volume_read - b.volume_read
    volume_written := a.volume_written - b.volume_written
    t_reads := a.t_reads - b.t_reads
    t_writes := a.t_writes - b.t_writes
    p_reads := a.p_reads - b.p_reads
    p_writes := a.p_writes - b.p_writes
    p_ios := a.p_ios - b.p_ios
    t_wait := a.t_wait - b.t_wait
    elapsed := a.elapsed - b.elapsed }

instance : Sub stats_data := ⟨stats_data.sub⟩

theorem stats_data.add_def (a b : stats_data) : a + b = stats_data.add a b := rfl

theorem stats_data.sub_def (a b : stats_data) : a - b = stats_data.sub a b := rfl

/-- Getter `stats_data::get_reads` (iostats.h line 381). -/
def stats_data.get_reads (d : stats_data) : ℕ := d.reads

/-- Getter `stats_data::get_writes` (iostats.h line 386). -/
def stats_data.get_writes (d : stats_data) : ℕ := d.writes

/-- Getter `stats_data::get_read_volume` (iostats.h line 391). -/
def stats_data.get_read_volume (d : stats_data) : ℤ := d.volume_read

/-- Getter `stats_data::get_written_volume` (iostats.h line 396). -/
def stats_data.get_written_volume (d : stats_data) : ℤ := d.volume_written

/-- Getter `stats_data::get_read_time` (iostats.h line 401). -/
def stats_data.get_read_time (d : stats_data) : ℚ := d.t_reads

/-- Getter `stats_data::get_write_time` (iostats.h line 406). -/
def stats_data.get_write_time (d : stats_data) : ℚ := d.t_writes

/-- Getter `stats_data::get_pread_time` (iostats.h line 411). -/
def stats_data.get_pread_time (d : stats_data) : ℚ := d.p_reads

/-- Getter `stats_data::get_pwrite_time` (iostats.h line 416). -/
def stats_data.get_pwrite_time (d : stats_data) : ℚ := d.p_writes

/-- Getter `stats_data::get_pio_time` (iostats.h line 421). -/
def stats_data.get_pio_time (d : stats_data) : ℚ := d.p_ios

/-- Getter `stats_data::get_elapsed_time` (iostats.h line 426). -/
def stats_data.get_elapsed_time (d : stats_data) : ℚ := d.elapsed

/-- Getter `stats_data::get_io_wait_time` (iostats.h line 431). -/
def stats_data.get_io_wait_time (d : stats_data) : ℚ := d.t_wait

/-- Fold a sequence of explicit `stop()` calls (each with its
environment-supplied operation-start and call times) over a read guard,
collecting all hook invocations. -/
def scoped_read_timer.stops (io : Bool) (g : scoped_read_timer) :
    List (ℚ × ℚ) → scoped_read_timer × List Event
  | [] => (g, [])
  | p :: rest =>
      ((scoped_read_timer.stops io (scoped_read_timer.stop io g p.1 p.2).1 rest).1,
       (scoped_read_timer.stop io g p.1 p.2).2
         ++ (scoped_read_timer.stops io (scoped_read_timer.stop io g p.1 p.2).1 rest).2)

/-- The whole lifetime of a read guard: construction with `size` at `t0`,
then the explicit `stop()` calls in `stopCalls`, then destruction (whose
`stop()` would run at times `u`, `e`); yields every hook invocation made
during the lifetime, in order. -/
def scoped_read_timer.lifetime (io : Bool) (size : ℕ) (t0 : ℚ)
    (stopCalls : List (ℚ × ℚ)) (u e : ℚ) : List Event :=
  (scoped_read_timer.construct io size t0).2
    ++ (scoped_read_timer.stops io
          (scoped_read_timer.construct io size t0).1 stopCalls).2
    ++ scoped_read_timer.destruct io
        (scoped_read_timer.stops io
          (scoped_read_timer.construct io size t0).1 stopCalls).1 u e

/-- Analogue of `scoped_read_timer.stops` for the write guard. -/
def scoped_write_timer.stops (io : Bool) (g : scoped_write_timer) :
    List (ℚ × ℚ) → scoped_write_timer × List Event
  | [] => (g, [])
  | p :: rest =>
      ((scoped_write_timer.stops io (scoped_write_timer.stop io g p.1 p.2).1 rest).1,
       (scoped_write_timer.stop io g p.1 p.2).2
         ++ (scoped_write_timer.stops io (scoped_write_timer.stop io g p.1 p.2).1 rest).2)

/-- Analogue of `scoped_read_timer.lifetime` for the write guard. -/
def scoped_write_timer.lifetime (io : Bool) (size : ℕ) (t0 : ℚ)
    (stopCalls : List (ℚ × ℚ)) (u e : ℚ) : List Event :=
  (scoped_write_timer.construct io size t0).2
    ++ (scoped_write_timer.stops io
          (scoped_write_timer.construct io size t0).1 stopCalls).2
    ++ scoped_write_timer.destruct io
        (scoped_write_timer.stops io
          (scoped_write_timer.construct io size t0).1 stopCalls).1 u e

/-- Recognizer for read-start hook invocations. -/
def Event.isReadStart : Event → Bool
  | .readStart _ _ => true
  | _ => false

/-- Recognizer for read-finish hook invocations. -/
def Event.isReadFinish : Event → Bool
  | .readFinish _ _ => true
  | _ => false

/-- Recognizer for write-start hook invocations. -/
def Event.isWriteStart : Event → Bool
  | .writeStart _ _ => true
  | _ => false

/-- Recognizer for write-finish hook invocations. -/
def Event.isWriteFinish : Event → Bool
  | .writeFinish _ _ => true
  | _ => false

theorem read_timer_stops_not_running (io : Bool) (L : List (ℚ × ℚ)) :
    scoped_read_timer.stops io ⟨false⟩ L = (⟨false⟩, []) := by
  induction L with
  | nil => rfl
  | cons p rest ih =>
      cases io <;> simp [scoped_read_timer.stops, scoped_read_timer.stop, ih]

theorem write_timer_stops_not_running (io : Bool) (L : List (ℚ × ℚ)) :
    scoped_write_timer.stops io ⟨false⟩ L = (⟨false⟩, []) := by
  induction L with
  | nil => rfl
  | cons p rest ih =>
      cases io <;> simp [scoped_write_timer.stops, scoped_write_timer.stop, ih]

/-- With instrumentation enabled, a read guard's lifetime consists of
exactly one `read_started` and one `read_finished` invocation, whatever the
number of explicit `stop()` calls. -/
theorem read_timer_lifetime_eq (size : ℕ) (t0 : ℚ)
    (L : List (ℚ × ℚ)) (u e : ℚ) :
    scoped_read_timer.lifetime true size t0 L u e
      = [.readStart (size % U32) t0,
         .readFinish (L.headD (u, e)).1 (L.headD (u, e)).2] := by
  cases L with
  | nil =>
      simp [scoped_read_timer.lifetime, scoped_read_timer.construct,
        scoped_read_timer.start, scoped_read_timer.stops,
        scoped_read_timer.stop, scoped_read_timer.destruct]
  | cons p rest =>
      simp [scoped_read_timer.lifetime, scoped_read_timer.construct,
        scoped_read_timer.start, scoped_read_timer.stops,
        scoped_read_timer.stop, scoped_read_timer.destruct,
        read_timer_stops_not_running]

/-- Analogue of `read_timer_lifetime_eq` for the write guard. -/
theorem write_timer_lifetime_eq (size : ℕ) (t0 : ℚ)
    (L : List (ℚ × ℚ)) (u e : ℚ) :
    scoped_write_timer.lifetime true size t0 L u e
      = [.writeStart (size % U32) t0,
         .writeFinish (L.headD (u, e)).1 (L.headD (u, e)).2] := by
  cases L with
  | nil =>
      simp [scoped_write_timer.lifetime, scoped_write_timer.construct,
        scoped_write_timer.start, scoped_write_timer.stops,
        scoped_write_timer.stop, scoped_write_timer.destruct]
  | cons p rest =>
      simp [scoped_write_timer.lifetime, scoped_write_timer.construct,
        scoped_write_timer.start, scoped_write_timer.stops,
        scoped_write_timer.stop, scoped_write_timer.destruct,
        write_timer_stops_not_running]

/-- C1: over the whole lifetime of a scoped read (resp. write) guard —
construction, then any number of explicit `stop()` calls, then destruction —
the `read_started`/`write_started` hook is invoked exactly once, the
`read_finished`/`write_finished` hook is invoked exactly once, and the
completed-operation counter `reads` (resp. `writes`) increases by exactly
1, never 2 and never 0. -/
theorem c1_scoped_guard_counts_exactly_once (size : ℕ) (t0 : ℚ)
    (L : List (ℚ × ℚ)) (u e : ℚ) (s : stats) (cwt : Bool)
    (hr : s.reads + 1 < U32) (hw : s.writes + 1 < U32) :
    ((scoped_read_timer.lifetime true size t0 L u e).countP
        (fun ev => ev.isReadStart) = 1
      ∧ (scoped_read_timer.lifetime true size t0 L u e).countP
          (fun ev => ev.isReadFinish) = 1
      ∧ (runEvents true cwt s
          (scoped_read_timer.lifetime true size t0 L u e)).reads
          = s.reads + 1)
    ∧ ((scoped_write_timer.lifetime true size t0 L u e).countP
        (fun ev => ev.isWriteStart) = 1
      ∧ (scoped_write_timer.lifetime true size t0 L u e).countP
          (fun ev => ev.isWriteFinish) = 1
      ∧ (runEvents true cwt s
          (scoped_write_timer.lifetime true size t0 L u e)).writes
          = s.writes + 1) := by
  rw [read_timer_lifetime_eq, write_timer_lifetime_eq]
  refine ⟨⟨?_, ?_, ?_⟩, ⟨?_, ?_, ?_⟩⟩
  · simp [List.countP, List.countP.go, Event.isReadStart, Event.isReadFinish]
  · simp [List.countP, List.countP.go, Event.isReadStart, Event.isReadFinish]
  · simp only [runEvents, applyEvent, if_true]
    simp only [U32] at hr hw
    simp [stats.read_started, stats.read_finished, addU32, U32]
    omega
  · simp [List.countP, List.countP.go, Event.isWriteStart, Event.isWriteFinish]
  · simp [List.countP, List.countP.go, Event.isWriteStart, Event.isWriteFinish]
  · simp only [runEvents, applyEvent, if_true]
    simp only [U32] at hr hw
    simp [stats.write_started, stats.write_finished, addU32, U32]
    omega

/-- Witness for `c1_scoped_guard_counts_exactly_once` at a concrete input:
guard for a 4-byte operation constructed at time 0, `stop()` called twice,
then destructed, starting from the freshly initialized aggregator. -/
theorem c1_scoped_guard_counts_exactly_once_witness :
    (stats.init 0).reads + 1 < U32 ∧ (stats.init 0).writes + 1 < U32
    ∧ (runEvents true true (stats.init 0)
        (scoped_read_timer.lifetime true 4 0 [(0, 1), (1, 2)] 2 3)).reads
        = (stats.init 0).reads + 1 := by
  refine ⟨by norm_num [stats.init, U32], by norm_num [stats.init, U32], ?_⟩
  exact (c1_scoped_guard_counts_exactly_once 4 0 [(0, 1), (1, 2)] 2 3
    (stats.init 0) true (by norm_num [stats.init, U32])
    (by norm_num [stats.init, U32])).1.2.2

/-- With `STXXL_IO_STATS` disabled, no event ever changes any read/write
counter of the aggregator (wait events touch only wait fields). -/
theorem runEvents_io_off (cwt : Bool) (s : stats) (evs : List Event) :
    (runEvents false cwt s evs).reads = s.reads
    ∧ (runEvents false cwt s evs).writes = s.writes
    ∧ (runEvents false cwt s evs).volume_read = s.volume_read
    ∧ (runEvents false cwt s evs).volume_written = s.volume_written
    ∧ (runEvents false cwt s evs).t_reads = s.t_reads
    ∧ (runEvents false cwt s evs).t_writes = s.t_writes
    ∧ (runEvents false cwt s evs).p_reads = s.p_reads
    ∧ (runEvents false cwt s evs).p_writes = s.p_writes
    ∧ (runEvents false cwt s evs).p_ios = s.p_ios := by
  induction evs generalizing s with
  | nil => exact ⟨rfl, rfl, rfl, rfl, rfl, rfl, rfl, rfl, rfl⟩
  | cons e rest ih =>
      cases e with
      | readStart sz t => simpa [runEvents, applyEvent] using ih s
      | readFinish u t => simpa [runEvents, applyEvent] using ih s
      | writeStart sz t => simpa [runEvents, applyEvent] using ih s
      | writeFinish u t => simpa [runEvents, applyEvent] using ih s
      | waitStart t =>
          cases cwt with
          | false => simpa [runEvents, applyEvent] using ih s
          | true =>
              have h := ih (s.wait_started t)
              simp only [runEvents, applyEvent, if_true]
              simpa [stats.wait_started] using h
      | waitFinish u t =>
          cases cwt with
          | false => simpa [runEvents, applyEvent] using ih s
          | true =>
              have h := ih (s.wait_finished u t)
              simp only [runEvents, applyEvent, if_true]
              simpa [stats.wait_finished] using h

/-- With `COUNT_WAIT_TIME` disabled, no event ever changes the wait-time
counters of the aggregator. -/
theorem runEvents_cwt_off (io : Bool) (s : stats) (evs : List Event) :
    (runEvents io false s evs).t_waits = s.t_waits
    ∧ (runEvents io false s evs).p_waits = s.p_waits := by
  induction evs generalizing s with
  | nil => exact ⟨rfl, rfl⟩
  | cons e rest ih =>
      cases e with
      | waitStart t => simpa [runEvents, applyEvent] using ih s
      | waitFinish u t => simpa [runEvents, applyEvent] using ih s
      | readStart sz t =>
          cases io with
          | false => simpa [runEvents, applyEvent] using ih s
          | true =>
              have h := ih (s.read_started sz t)
              simp only [runEvents, applyEvent, if_true]
              simpa [stats.read_started] using h
      | readFinish u t =>
          cases io with
          | false => simpa [runEvents, applyEvent] using ih s
          | true =>
              have h := ih (s.read_finished u t)
              simp only [runEvents, applyEvent, if_true]
              simpa [stats.read_finished] using h
      | writeStart sz t =>
          cases io with
          | false => simpa [runEvents, applyEvent] using ih s
          | true =>
              have h := ih (s.write_started sz t)
              simp only [runEvents, applyEvent, if_true]
              simpa [stats.write_started] using h
      | writeFinish u t =>
          cases io with
          | false => simpa [runEvents, applyEvent] using ih s
          | true =>
              have h := ih (s.write_finished u t)
              simp only [runEvents, applyEvent, if_true]
              simpa [stats.write_finished] using h

/-- C7: when `STXXL_IO_STATS` is 0, `read_started`, `read_finished`,
`write_started`, `write_finished` and the scoped read/write guards'
`start`/`stop` are all no-ops and every read/write counter getter returns
zero on any trace; independently, when `COUNT_WAIT_TIME` is undefined,
`wait_started`, `wait_finished` and the scoped wait guard are no-ops; and
each toggle affects only its own category (disabling one leaves the other
category's hooks behaving identically to the fully-enabled build). -/
theorem c7_disabled_instrumentation_no_ops :
    (∀ (cwt : Bool) (s : stats) (sz : ℕ) (u t : ℚ),
      applyEvent false cwt s (.readStart sz t) = s
      ∧ applyEvent false cwt s (.readFinish u t) = s
      ∧ applyEvent false cwt s (.writeStart sz t) = s
      ∧ applyEvent false cwt s (.writeFinish u t) = s)
    ∧ (∀ (gr : scoped_read_timer) (gw : scoped_write_timer) (sz : ℕ) (u t : ℚ),
      (scoped_read_timer.start false gr sz t).2 = []
      ∧ (scoped_read_timer.stop false gr u t).2 = []
      ∧ (scoped_write_timer.start false gw sz t).2 = []
      ∧ (scoped_write_timer.stop false gw u t).2 = [])
    ∧ (∀ (cwt : Bool) (t0 : ℚ) (evs : List Event),
      (runEvents false cwt (stats.init t0) evs).get_reads = 0
      ∧ (runEvents false cwt (stats.init t0) evs).get_writes = 0
      ∧ (runEvents false cwt (stats.init t0) evs).get_read_volume = 0
      ∧ (runEvents false cwt (stats.init t0) evs).get_written_volume = 0
      ∧ (runEvents false cwt (stats.init t0) evs).get_read_time = 0
      ∧ (runEvents false cwt (stats.init t0) evs).get_write_time = 0
      ∧ (runEvents false cwt (stats.init t0) evs).get_pread_time = 0
      ∧ (runEvents false cwt (stats.init t0) evs).get_pwrite_time = 0
      ∧ (runEvents false cwt (stats.init t0) evs).get_pio_time = 0)
    ∧ (∀ (io : Bool) (s : stats) (gv : scoped_wait_timer) (u t : ℚ),
      applyEvent io false s (.waitStart t) = s
      ∧ applyEvent io false s (.waitFinish u t) = s
      ∧ (scoped_wait_timer.start false gv t).2 = []
      ∧ (scoped_wait_timer.stop false gv u t).2 = [])
    ∧ (∀ (io : Bool) (t0 : ℚ) (evs : List Event),
      (runEvents io false (stats.init t0) evs).get_io_wait_time = 0)
    ∧ (∀ (s : stats) (sz : ℕ) (u t : ℚ),
      applyEvent false true s (.waitStart t) = applyEvent true true s (.waitStart t)
      ∧ applyEvent false true s (.waitFinish u t)
          = applyEvent true true s (.waitFinish u t)
      ∧ applyEvent true false s (.readStart sz t)
          = applyEvent true true s (.readStart sz t)
      ∧ applyEvent true false s (.readFinish u t)
          = applyEvent true true s (.readFinish u t)
      ∧ applyEvent true false s (.writeStart sz t)
          = applyEvent true true s (.writeStart sz t)
      ∧ applyEvent true false s (.writeFinish u t)
          = applyEvent true true s (.writeFinish u t)) := by
  refine ⟨?_, ?_, ?_, ?_, ?_, ?_⟩
  · intro cwt s sz u t
    exact ⟨rfl, rfl, rfl, rfl⟩
  · intro gr gw sz u t
    refine ⟨rfl, rfl, rfl, rfl⟩
  · intro cwt t0 evs
    obtain ⟨h1, h2, h3, h4, h5, h6, h7, h8, h9⟩ :=
      runEvents_io_off cwt (stats.init t0) evs
    simp only [stats.get_reads, stats.get_writes, stats.get_read_volume,
      stats.get_written_volume, stats.get_read_time, stats.get_write_time,
      stats.get_pread_time, stats.get_pwrite_time, stats.get_pio_time,
      h1, h2, h3, h4, h5, h6, h7, h8, h9]
    simp [stats.init]
  · intro io s gv u t
    exact ⟨rfl, rfl, rfl, rfl⟩
  · intro io t0 evs
    obtain ⟨h1, h2⟩ := runEvents_cwt_off io (stats.init t0) evs
    simp only [stats.get_io_wait_time, h1]
    simp [stats.init]
  · intro s sz u t
    exact ⟨rfl, rfl, rfl, rfl, rfl, rfl⟩

/-- C8 counterexample: the snapshot does not capture the aggregator's
`p_waits` counter.  Two aggregator states that differ only in `p_waits`
yield identical `stats_data` snapshots at the same instant, so no field of
the snapshot (and no getter) copies `p_waits`. -/
theorem c8_p_waits_not_copied :
    stats_data.ofStats { stats.init 0 with p_waits := 1 } 5
      = stats_data.ofStats (stats.init 0) 5
    ∧ ({ stats.init 0 with p_waits := 1 } : stats).p_waits
        ≠ (stats.init 0).p_waits := by
  constructor
  · rfl
  · norm_num [stats.init]

/-- C8 (amended): constructing a `stats_data` snapshot from a live
aggregator copies the counters `reads`, `writes`, `volume_read`,
`volume_written`, `t_reads`, `t_writes`, `p_reads`, `p_writes`, `p_ios`
and `t_waits` (the latter stored as `t_wait`), omitting the transient
`acc_*`/`p_begin_*` fields and also `p_waits`, and stores
`elapsed = now - last_reset`; the snapshot exposes a getter for each
copied counter. -/
theorem c8_snapshot_copies_counters (s : stats) (now : ℚ) :
    (stats_data.ofStats s now).get_reads = s.get_reads
    ∧ (stats_data.ofStats s now).get_writes = s.get_writes
    ∧ (stats_data.ofStats s now).get_read_volume = s.get_read_volume
    ∧ (stats_data.ofStats s now).get_written_volume = s.get_written_volume
    ∧ (stats_data.ofStats s now).get_read_time = s.get_read_time
    ∧ (stats_data.ofStats s now).get_write_time = s.get_write_time
    ∧ (stats_data.ofStats s now).get_pread_time = s.get_pread_time
    ∧ (stats_data.ofStats s now).get_pwrite_time = s.get_pwrite_time
    ∧ (stats_data.ofStats s now).get_pio_time = s.get_pio_time
    ∧ (stats_data.ofStats s now).get_io_wait_time = s.get_io_wait_time
    ∧ (stats_data.ofStats s now).get_elapsed_time
        = now - s.get_last_reset_time :=
  ⟨rfl, rfl, rfl, rfl, rfl, rfl, rfl, rfl, rfl, rfl, rfl⟩

/-- C9: the scoped read/write guards accept an operation size of type
`unsigned_type` but forward it to `read_started`/`write_started`, whose
parameter is `unsigned`; the recorded byte volume is therefore the
constructor argument reduced modulo `2^32`.  In particular a size of
`2^32` records zero bytes. -/
theorem c9_guard_size_truncated_mod_u32 :
    (∀ (s : stats) (size : ℕ) (t : ℚ),
      (scoped_write_timer.construct true size t).2 = [.writeStart (size % U32) t]
      ∧ (runEvents true true s (scoped_write_timer.construct true size t).2).volume_written
          = s.volume_written + ((size % U32 : ℕ) : ℤ)
      ∧ (scoped_read_timer.construct true size t).2 = [.readStart (size % U32) t]
      ∧ (runEvents true true s (scoped_read_timer.construct true size t).2).volume_read
          = s.volume_read + ((size % U32 : ℕ) : ℤ))
    ∧ (runEvents true true (stats.init 0)
        (scoped_write_timer.construct true U32 0).2).volume_written = 0
    ∧ (U32 : ℤ) ≠ 0 := by
  refine ⟨?_, ?_, by norm_num [U32]⟩
  · intro s size t
    refine ⟨rfl, ?_, rfl, ?_⟩
    · simp [runEvents, applyEvent, scoped_write_timer.construct,
        scoped_write_timer.start, stats.write_started]
    · simp [runEvents, applyEvent, scoped_read_timer.construct,
        scoped_read_timer.start, stats.read_started]
  · simp [runEvents, applyEvent, scoped_write_timer.construct,
      scoped_write_timer.start, stats.write_started, stats.init, U32]

/-- C10: a default-constructed `stats_data` has all eleven fields zero and
is a two-sided identity for `stats_data::operator+` on any snapshot whose
`unsigned` counters are in range. -/
theorem c10_default_snapshot_zero_identity :
    (stats_data.default.get_reads = 0 ∧ stats_data.default.get_writes = 0
      ∧ stats_data.default.get_read_volume = 0
      ∧ stats_data.default.get_written_volume = 0
      ∧ stats_data.default.get_read_time = 0
      ∧ stats_data.default.get_write_time = 0
      ∧ stats_data.default.get_pread_time = 0
      ∧ stats_data.default.get_pwrite_time = 0
      ∧ stats_data.default.get_pio_time = 0
      ∧ stats_data.default.get_io_wait_time = 0
      ∧ stats_data.default.get_elapsed_time = 0)
    ∧ ∀ d : stats_data, d.reads < U32 → d.writes < U32 →
        d + stats_data.default = d ∧ stats_data.default + d = d := by
  refine ⟨⟨rfl, rfl, rfl, rfl, rfl, rfl, rfl, rfl, rfl, rfl, rfl⟩, ?_⟩
  rintro ⟨r, w, vr, vw, tr, tw, pr, pw, pio, twt, el⟩ hr hw
  simp only [U32] at hr hw
  constructor <;>
    · simp only [stats_data.add_def, stats_data.add, stats_data.default,
        addU32, U32, stats_data.mk.injEq]
      norm_num
      omega

/-- Witness for `c10_default_snapshot_zero_identity`: the zero snapshot
itself is in range and absorbing. -/
theorem c10_default_snapshot_zero_identity_witness :
    stats_data.default.reads < U32 ∧ stats_data.default.writes < U32
    ∧ (stats_data.default + stats_data.default = stats_data.default
      ∧ stats_data.default + stats_data.default = stats_data.default) := by
  refine ⟨by norm_num [stats_data.default, U32],
    by norm_num [stats_data.default, U32], ?_⟩
  exact c10_default_snapshot_zero_identity.2 stats_data.default
    (by norm_num [stats_data.default, U32])
    (by norm_num [stats_data.default, U32])

theorem runEvents_append (io cwt : Bool) (s : stats) (l1 l2 : List Event) :
    runEvents io cwt s (l1 ++ l2) = runEvents io cwt (runEvents io cwt s l1) l2 := by
  induction l1 generalizing s with
  | nil => rfl
  | cons e rest ih => simp [runEvents, ih]

theorem runEvents_nil (io cwt : Bool) (s : stats) : runEvents io cwt s [] = s := rfl

theorem runEvents_cons (io cwt : Bool) (s : stats) (e : Event) (es : List Event) :
    runEvents io cwt s (e :: es) = runEvents io cwt (applyEvent io cwt s e) es := rfl

theorem applyEvent_readStart (s : stats) (sz : ℕ) (t : ℚ) :
    applyEvent true true s (.readStart sz t) = s.read_started sz t := rfl

theorem applyEvent_readFinish (s : stats) (u t : ℚ) :
    applyEvent true true s (.readFinish u t) = s.read_finished u t := rfl

theorem applyEvent_writeStart (s : stats) (sz : ℕ) (t : ℚ) :
    applyEvent true true s (.writeStart sz t) = s.write_started sz t := rfl

theorem applyEvent_writeFinish (s : stats) (u t : ℚ) :
    applyEvent true true s (.writeFinish u t) = s.write_finished u t := rfl

theorem applyEvent_waitStart (s : stats) (t : ℚ) :
    applyEvent true true s (.waitStart t) = s.wait_started t := rfl

theorem applyEvent_waitFinish (s : stats) (u t : ℚ) :
    applyEvent true true s (.waitFinish u t) = s.wait_finished u t := rfl

/-- `K` fully-overlapping reads of size `sz`: all start at `t0`, all finish
at `t0 + d`. -/
def overlapReads (K sz : ℕ) (t0 d : ℚ) : List Event :=
  List.replicate K (.readStart sz t0)
    ++ List.replicate K (.readFinish t0 (t0 + d))

/-- Effect of `k` further `read_started` calls while at least one read (and
hence at least one I/O) is already active: volumes and active counts grow,
the parallel-interval begin timestamps stay put. -/
theorem runEvents_replicate_readStart (sz : ℕ) (t0 : ℚ) :
    ∀ (k : ℕ) (s : stats), 0 < s.acc_reads → 0 < s.acc_ios →
    runEvents true true s (List.replicate k (.readStart sz t0))
      = { s with
          volume_read := s.volume_read + ((k * sz : ℕ) : ℤ)
          acc_reads := s.acc_reads + k
          acc_ios := s.acc_ios + k } := by
  intro k
  induction k with
  | zero =>
      intro s h1 h2
      simp [runEvents]
  | succ k ih =>
      intro s h1 h2
      rw [List.replicate_succ, runEvents_cons, applyEvent_readStart]
      rw [ih (s.read_started sz t0)
        (by simp [stats.read_started]; omega)
        (by simp [stats.read_started]; omega)]
      simp only [stats.read_started]
      have h1' : ¬s.acc_reads = 0 := by omega
      have h2' : ¬s.acc_ios = 0 := by omega
      simp only [h1', h2', if_false, stats.mk.injEq]
      refine ⟨trivial, trivial, by push_cast; ring, trivial, trivial, trivial,
        trivial, trivial, trivial, trivial, trivial, trivial, trivial, trivial,
        trivial, by push_cast; ring, trivial, by push_cast; ring, trivial,
        trivial⟩

/-- Effect of `c + 1` `read_finished` calls that drain all `c + 1` active
reads (which are also the only active I/Os): each adds its own duration to
the serial time, and the last one closes both parallel intervals. -/
theorem runEvents_replicate_readFinish (u e : ℚ) :
    ∀ (c : ℕ) (s : stats), s.acc_reads = c + 1 → s.acc_ios = c + 1 →
    runEvents true true s (List.replicate (c + 1) (.readFinish u e))
      = { s with
          reads := (s.reads + (c + 1)) % U32
          t_reads := s.t_reads + ((c + 1 : ℕ) : ℚ) * (e - u)
          acc_reads := 0
          acc_ios := 0
          p_reads := s.p_reads + (e - s.p_begin_read)
          p_ios := s.p_ios + (e - s.p_begin_io) } := by
  intro c
  induction c with
  | zero =>
      intro s h1 h2
      rw [List.replicate_succ, List.replicate_zero, runEvents_cons,
        applyEvent_readFinish, runEvents_nil]
      simp only [stats.read_finished, h1, h2]
      norm_num [addU32, stats.mk.injEq]
      try ring
  | succ c ih =>
      intro s h1 h2
      rw [List.replicate_succ, runEvents_cons, applyEvent_readFinish]
      rw [ih (s.read_finished u e)
        (by simp [stats.read_finished]; omega)
        (by simp [stats.read_finished]; omega)]
      simp only [stats.read_finished, h1, h2]
      have hne : ¬(((c + 1 : ℕ) : ℤ) + 1 - 1 = 0) := by push_cast; omega
      simp only [hne, if_false, stats.mk.injEq, addU32]
      repeat' apply And.intro
      all_goals first
        | trivial
        | (simp only [U32]; push_cast; omega)
        | (push_cast; ring)
        | omega

/-- C3 (amended): after `K ≥ 1` fully-overlapping reads of duration `d`
(all start at `t0`, all finish at `t0 + d`), the aggregator reports
`get_read_time() = K·d` (serial sum) and `get_pread_time() = d` (union
time), and whenever `K > 1` *and the common duration is positive* the
parallel time is strictly smaller than the serial time. -/
theorem c3_overlap_collapse (K sz : ℕ) (t t0 d : ℚ) (hK : 1 ≤ K)
    (hKU : K < U32) :
    (runEvents true true (stats.init t) (overlapReads K sz t0 d)).get_read_time
        = (K : ℚ) * d
    ∧ (runEvents true true (stats.init t) (overlapReads K sz t0 d)).get_pread_time
        = d
    ∧ (runEvents true true (stats.init t) (overlapReads K sz t0 d)).get_reads
        = K
    ∧ (1 < K → 0 < d →
        (runEvents true true (stats.init t) (overlapReads K sz t0 d)).get_pread_time
          < (runEvents true true (stats.init t) (overlapReads K sz t0 d)).get_read_time) := by
  obtain ⟨k, rfl⟩ : ∃ k, K = k + 1 := ⟨K - 1, by omega⟩
  have hrun : runEvents true true (stats.init t) (overlapReads (k + 1) sz t0 d)
      = { stats.init t with
          reads := (k + 1) % U32
          volume_read := ((k + 1) * sz : ℕ)
          t_reads := ((k + 1 : ℕ) : ℚ) * (t0 + d - t0)
          p_reads := t0 + d - t0
          p_ios := t0 + d - t0
          p_begin_read := t0
          p_begin_io := t0 } := by
    rw [overlapReads, runEvents_append, List.replicate_succ, runEvents_cons,
      applyEvent_readStart]
    rw [runEvents_replicate_readStart sz t0 k ((stats.init t).read_started sz t0)
      (by simp [stats.read_started, stats.init])
      (by simp [stats.read_started, stats.init])]
    rw [runEvents_replicate_readFinish t0 (t0 + d) k _
      (by simp [stats.read_started, stats.init]; omega)
      (by simp [stats.read_started, stats.init]; omega)]
    simp only [stats.read_started, stats.init, stats.mk.injEq]
    norm_num
    repeat' apply And.intro
    all_goals first
      | trivial
      | (push_cast; ring)
      | omega
  rw [hrun]
  have hlt : (k + 1) % U32 = k + 1 := Nat.mod_eq_of_lt hKU
  refine ⟨by simp [stats.get_read_time]; try ring, by simp [stats.get_pread_time],
    by simp [stats.get_reads, hlt], ?_⟩
  intro h1 hd
  simp only [stats.get_pread_time, stats.get_read_time]
  have hk : (1 : ℚ) ≤ (k : ℚ) := by
    have : 1 ≤ k := by omega
    exact_mod_cast this
  have : t0 + d - t0 = d := by ring
  rw [this]
  push_cast
  nlinarith

/-- Witness for `c3_overlap_collapse`: two overlapping unit reads of
duration 1. -/
theorem c3_overlap_collapse_witness :
    (1 ≤ 2 ∧ 2 < U32)
    ∧ (runEvents true true (stats.init 0) (overlapReads 2 4 0 1)).get_read_time
        = (2 : ℚ) * 1
    ∧ (runEvents true true (stats.init 0) (overlapReads 2 4 0 1)).get_pread_time
        = 1 := by
  have h := c3_overlap_collapse 2 4 0 0 1 (by norm_num) (by norm_num [U32])
  exact ⟨⟨by norm_num, by norm_num [U32]⟩, h.1, h.2.1⟩

/-- C3 counterexample: the claim's strictness clause fails for
zero-duration operations.  For `K = 2` fully-overlapping reads of duration
`d = 0`, the serial time `K·d` and parallel time `d` are both 0, so the
parallel time is *not* strictly less than the serial time although
`K > 1`. -/
theorem c3_strictness_fails_at_zero_duration :
    (runEvents true true (stats.init 0) (overlapReads 2 4 0 0)).get_read_time = 0
    ∧ (runEvents true true (stats.init 0) (overlapReads 2 4 0 0)).get_pread_time = 0
    ∧ ¬((runEvents true true (stats.init 0) (overlapReads 2 4 0 0)).get_pread_time
        < (runEvents true true (stats.init 0) (overlapReads 2 4 0 0)).get_read_time) := by
  norm_num [overlapReads, List.replicate, runEvents, applyEvent,
    stats.read_started, stats.read_finished, stats.init, addU32, U32,
    stats.get_read_time, stats.get_pread_time]

/-- One read of duration `d1` followed by a write of duration `d2` that
does not overlap it in time. -/
def disjointReadWrite (szr szw : ℕ) (t0 d1 t1 d2 : ℚ) : List Event :=
  [.readStart szr t0, .readFinish t0 (t0 + d1),
   .writeStart szw t1, .writeFinish t1 (t1 + d2)]

/-- A write fully contained in a read, both starting at `t0` (full overlap
with `d2 ≤ d1`). -/
def writeInsideRead (szr szw : ℕ) (t0 d1 d2 : ℚ) : List Event :=
  [.readStart szr t0, .writeStart szw t0,
   .writeFinish t0 (t0 + d2), .readFinish t0 (t0 + d1)]

/-- A read fully contained in a write, both starting at `t0` (full overlap
with `d1 ≤ d2`). -/
def readInsideWrite (szr szw : ℕ) (t0 d1 d2 : ℚ) : List Event :=
  [.writeStart szw t0, .readStart szr t0,
   .readFinish t0 (t0 + d1), .writeFinish t0 (t0 + d2)]

/-- C4: `p_ios` measures the union of read-busy and write-busy wall-clock
time: a read of duration `d1` and a non-overlapping write of duration `d2`
yield `p_ios = d1 + d2`, while a fully-overlapping pair yields
`p_ios = max d1 d2`; and `acc_ios` is incremented on every read or write
start independently of the per-kind active counts. -/
theorem c4_pio_union_of_read_and_write (szr szw : ℕ) (t0 d1 t1 d2 : ℚ)
    (hdisj : t0 + d1 ≤ t1) :
    (runEvents true true (stats.init 0)
        (disjointReadWrite szr szw t0 d1 t1 d2)).get_pio_time = d1 + d2
    ∧ (d2 ≤ d1 →
        (runEvents true true (stats.init 0)
          (writeInsideRead szr szw t0 d1 d2)).get_pio_time = max d1 d2)
    ∧ (d1 ≤ d2 →
        (runEvents true true (stats.init 0)
          (readInsideWrite szr szw t0 d1 d2)).get_pio_time = max d1 d2)
    ∧ (∀ (s : stats) (sz : ℕ) (tt : ℚ),
        (applyEvent true true s (.readStart sz tt)).acc_ios = s.acc_ios + 1
        ∧ (applyEvent true true s (.writeStart sz tt)).acc_ios = s.acc_ios + 1
        ∧ (applyEvent true true s (.readStart sz tt)).acc_reads = s.acc_reads + 1
        ∧ (applyEvent true true s (.readStart sz tt)).acc_writes = s.acc_writes
        ∧ (applyEvent true true s (.writeStart sz tt)).acc_writes = s.acc_writes + 1
        ∧ (applyEvent true true s (.writeStart sz tt)).acc_reads = s.acc_reads) := by
  refine ⟨?_, ?_, ?_, ?_⟩
  · simp [disjointReadWrite, runEvents, applyEvent, stats.read_started,
      stats.read_finished, stats.write_started, stats.write_finished,
      stats.init, stats.get_pio_time, addU32]
    try ring
  · intro h
    rw [max_eq_left h]
    simp [writeInsideRead, runEvents, applyEvent, stats.read_started,
      stats.read_finished, stats.write_started, stats.write_finished,
      stats.init, stats.get_pio_time, addU32]
    try ring
  · intro h
    rw [max_eq_right h]
    simp [readInsideWrite, runEvents, applyEvent, stats.read_started,
      stats.read_finished, stats.write_started, stats.write_finished,
      stats.init, stats.get_pio_time, addU32]
    try ring
  · intro s sz tt
    refine ⟨?_, ?_, ?_, ?_, ?_, ?_⟩ <;>
      simp [applyEvent, stats.read_started, stats.write_started]

/-- Witness for `c4_pio_union_of_read_and_write`: read of duration 1 at
time 0, write of duration 2 at time 3, and the overlapping variants. -/
theorem c4_pio_union_of_read_and_write_witness :
    ((0 : ℚ) + 1 ≤ 3)
    ∧ (runEvents true true (stats.init 0)
        (disjointReadWrite 4 8 0 1 3 2)).get_pio_time = 1 + 2 := by
  refine ⟨by norm_num, ?_⟩
  exact (c4_pio_union_of_read_and_write 4 8 0 1 3 2 (by norm_num)).1

/-- `N` sequential reads, one after another: each list entry is an
operation's `(size, start time, duration)`; the trace starts then finishes
each operation before the next begins. -/
def seqReads : List (ℕ × ℚ × ℚ) → List Event
  | [] => []
  | op :: rest =>
      .readStart op.1 op.2.1
        :: .readFinish op.2.1 (op.2.1 + op.2.2) :: seqReads rest

/-- The operation list is chronological from `τ`: each operation starts no
earlier than the previous one ended and has non-negative duration. -/
def seqChrono (τ : ℚ) : List (ℕ × ℚ × ℚ) → Bool
  | [] => true
  | op :: rest =>
      decide (τ ≤ op.2.1) && decide (0 ≤ op.2.2)
        && seqChrono (op.2.1 + op.2.2) rest

/-- Effect of one isolated read operation (started at `tt`, finished at
`tt + dd`) on a state with no active reads and no active I/Os. -/
theorem read_op_step (s : stats) (sz : ℕ) (tt dd : ℚ)
    (h1 : s.acc_reads = 0) (h2 : s.acc_ios = 0) :
    (s.read_started sz tt).read_finished tt (tt + dd)
      = { s with
          reads := addU32 s.reads 1
          volume_read := s.volume_read + (sz : ℤ)
          t_reads := s.t_reads + (tt + dd - tt)
          p_reads := s.p_reads + (tt + dd - tt)
          p_ios := s.p_ios + (tt + dd - tt)
          p_begin_read := tt
          p_begin_io := tt } := by
  simp only [stats.read_started, stats.read_finished, h1, h2]
  norm_num

/-- Cumulative effect of a sequential read trace on any state with no
active reads or I/Os and an in-range read counter. -/
theorem runEvents_seqReads (ops : List (ℕ × ℚ × ℚ)) :
    ∀ s : stats, s.acc_reads = 0 → s.acc_ios = 0 → s.reads < U32 →
    (runEvents true true s (seqReads ops)).reads = (s.reads + ops.length) % U32
    ∧ (runEvents true true s (seqReads ops)).volume_read
        = s.volume_read + (ops.map fun op => (op.1 : ℤ)).sum
    ∧ (runEvents true true s (seqReads ops)).t_reads
        = s.t_reads + (ops.map fun op => op.2.2).sum
    ∧ (runEvents true true s (seqReads ops)).p_reads
        = s.p_reads + (ops.map fun op => op.2.2).sum
    ∧ (runEvents true true s (seqReads ops)).acc_reads = 0
    ∧ (runEvents true true s (seqReads ops)).acc_ios = 0
    ∧ (runEvents true true s (seqReads ops)).reads < U32 := by
  induction ops with
  | nil =>
      intro s h1 h2 h3
      refine ⟨by simp [seqReads, runEvents, Nat.mod_eq_of_lt h3],
        by simp [seqReads, runEvents], by simp [seqReads, runEvents],
        by simp [seqReads, runEvents], by simpa [seqReads, runEvents] using h1,
        by simpa [seqReads, runEvents] using h2,
        by simpa [seqReads, runEvents] using h3⟩
  | cons op rest ih =>
      intro s h1 h2 h3
      obtain ⟨sz, tt, dd⟩ := op
      rw [seqReads, runEvents_cons, runEvents_cons, applyEvent_readStart,
        applyEvent_readFinish, read_op_step s sz tt dd h1 h2]
      have hlt : addU32 s.reads 1 < U32 := by
        simp only [addU32, U32]
        omega
      obtain ⟨ih1, ih2, ih3, ih4, ih5, ih6, ih7⟩ := ih
        { s with
          reads := addU32 s.reads 1
          volume_read := s.volume_read + (sz : ℤ)
          t_reads := s.t_reads + (tt + dd - tt)
          p_reads := s.p_reads + (tt + dd - tt)
          p_ios := s.p_ios + (tt + dd - tt)
          p_begin_read := tt
          p_begin_io := tt } (by simpa using h1) (by simpa using h2) hlt
      refine ⟨?_, ?_, ?_, ?_, ih5, ih6, ih7⟩
      · rw [ih1]
        simp only [addU32, U32, List.length_cons]
        omega
      · rw [ih2]
        simp only [List.map_cons, List.sum_cons]
        ring
      · rw [ih3]
        simp only [List.map_cons, List.sum_cons]
        ring
      · rw [ih4]
        simp only [List.map_cons, List.sum_cons]
        ring

/-- C6: after `N` sequential non-overlapping reads of sizes `s_i` and
durations `d_i`, `get_reads() = N`, `get_read_volume() = Σ s_i`,
`get_read_time() = Σ d_i` and `get_pread_time() = get_read_time()`;
moreover the byte volume is added by `read_started` while the completed
count is only incremented by `read_finished`, so an unfinished start
contributes volume but no count. -/
theorem c6_sequential_reads_exact_counting (ops : List (ℕ × ℚ × ℚ)) (t : ℚ)
    (hchrono : seqChrono t ops = true) (hlen : ops.length < U32) :
    (runEvents true true (stats.init t) (seqReads ops)).get_reads = ops.length
    ∧ (runEvents true true (stats.init t) (seqReads ops)).get_read_volume
        = (ops.map fun op => (op.1 : ℤ)).sum
    ∧ (runEvents true true (stats.init t) (seqReads ops)).get_read_time
        = (ops.map fun op => op.2.2).sum
    ∧ (runEvents true true (stats.init t) (seqReads ops)).get_pread_time
        = (runEvents true true (stats.init t) (seqReads ops)).get_read_time
    ∧ (∀ (s : stats) (sz : ℕ) (u tt : ℚ),
        (applyEvent true true s (.readStart sz tt)).volume_read
            = s.volume_read + (sz : ℤ)
        ∧ (applyEvent true true s (.readStart sz tt)).reads = s.reads
        ∧ (applyEvent true true s (.readFinish u tt)).reads = addU32 s.reads 1
        ∧ (applyEvent true true s (.readFinish u tt)).volume_read
            = s.volume_read) := by
  obtain ⟨ih1, ih2, ih3, ih4, ih5, ih6, ih7⟩ :=
    runEvents_seqReads ops (stats.init t) rfl rfl (by simp [stats.init, U32])
  refine ⟨?_, ?_, ?_, ?_, ?_⟩
  · rw [stats.get_reads, ih1]
    simp only [stats.init, U32] at *
    omega
  · rw [stats.get_read_volume, ih2]
    simp [stats.init]
  · rw [stats.get_read_time, ih3]
    simp [stats.init]
  · rw [stats.get_pread_time, stats.get_read_time, ih3, ih4]
    simp [stats.init]
  · intro s sz u tt
    refine ⟨?_, ?_, ?_, ?_⟩ <;>
      simp [applyEvent, stats.read_started, stats.read_finished]

/-- Witness for `c6_sequential_reads_exact_counting`: two sequential reads
of sizes 4 and 2, durations 1 each, starting at times 0 and 2. -/
theorem c6_sequential_reads_exact_counting_witness :
    seqChrono 0 [(4, 0, 1), (2, 2, 1)] = true
    ∧ ([(4, 0, 1), (2, 2, 1)] : List (ℕ × ℚ × ℚ)).length < U32
    ∧ (runEvents true true (stats.init 0)
        (seqReads [(4, 0, 1), (2, 2, 1)])).get_reads = 2 := by
  refine ⟨by norm_num [seqChrono], by norm_num [U32], ?_⟩
  exact (c6_sequential_reads_exact_counting [(4, 0, 1), (2, 2, 1)] 0
    (by norm_num [seqChrono]) (by norm_num [U32])).1

/-- No aggregator hook ever touches `last_reset`. -/
theorem runEvents_last_reset (io cwt : Bool) (s : stats) (evs : List Event) :
    (runEvents io cwt s evs).last_reset = s.last_reset := by
  induction evs generalizing s with
  | nil => rfl
  | cons e rest ih =>
      rw [runEvents_cons, ih]
      cases e <;> cases io <;> cases cwt <;>
        simp [applyEvent, stats.read_started, stats.read_finished,
          stats.write_started, stats.write_finished, stats.wait_started,
          stats.wait_finished]

/-- The aggregator's transient active counts agree with the ghost pending
lists of a well-formed trace. -/
def accOk (s : stats) (pr pw pv : List ℚ) : Prop :=
  s.acc_reads = (pr.length : ℤ) ∧ s.acc_writes = (pw.length : ℤ)
    ∧ s.acc_waits = (pv.length : ℤ)
    ∧ s.acc_ios = (pr.length : ℤ) + (pw.length : ℤ)

/-- Correspondence between the continuation `s1` of an aggregator run whose
baseline snapshot state was `off`, and the same events replayed on a
freshly reset aggregator `s2`: every cumulative counter of `s1` is the one
of `s2` plus `off`'s, the transient active counts agree, and each
parallel-interval begin timestamp agrees while its interval is live. -/
def Corr (off s1 s2 : stats) : Prop :=
  s1.acc_reads = s2.acc_reads ∧
  s1.acc_writes = s2.acc_writes ∧
  s1.acc_ios = s2.acc_ios ∧
  s1.acc_waits = s2.acc_waits ∧
  s1.reads = (s2.reads + off.reads) % U32 ∧
  s1.writes = (s2.writes + off.writes) % U32 ∧
  s2.reads < U32 ∧
  s2.writes < U32 ∧
  s1.volume_read = s2.volume_read + off.volume_read ∧
  s1.volume_written = s2.volume_written + off.volume_written ∧
  s1.t_reads = s2.t_reads + off.t_reads ∧
  s1.t_writes = s2.t_writes + off.t_writes ∧
  s1.p_reads = s2.p_reads + off.p_reads ∧
  s1.p_writes = s2.p_writes + off.p_writes ∧
  s1.p_ios = s2.p_ios + off.p_ios ∧
  s1.t_waits = s2.t_waits + off.t_waits ∧
  s1.p_waits = s2.p_waits + off.p_waits ∧
  (s1.acc_reads ≠ 0 → s1.p_begin_read = s2.p_begin_read) ∧
  (s1.acc_writes ≠ 0 → s1.p_begin_write = s2.p_begin_write) ∧
  (s1.acc_ios ≠ 0 → s1.p_begin_io = s2.p_begin_io) ∧
  (s1.acc_waits ≠ 0 → s1.p_begin_wait = s2.p_begin_wait)

theorem accOk_readStart {s : stats} {pr pw pv : List ℚ} (sz : ℕ) (b : ℚ)
    (h : accOk s pr pw pv) : accOk (s.read_started sz b) (b :: pr) pw pv := by
  simp only [accOk, stats.read_started, List.length_cons] at h ⊢
  push_cast
  omega

theorem accOk_readFinish {s : stats} {pr pw pv : List ℚ} (u e' : ℚ)
    (hm : u ∈ pr) (h : accOk s pr pw pv) :
    accOk (s.read_finished u e') (pr.erase u) pw pv := by
  have hlen : (pr.erase u).length = pr.length - 1 := List.length_erase_of_mem hm
  have hpos : 0 < pr.length := List.length_pos.mpr (List.ne_nil_of_mem hm)
  simp only [accOk, stats.read_finished, hlen] at h ⊢
  omega

theorem accOk_writeStart {s : stats} {pr pw pv : List ℚ} (sz : ℕ) (b : ℚ)
    (h : accOk s pr pw pv) : accOk (s.write_started sz b) pr (b :: pw) pv := by
  simp only [accOk, stats.write_started, List.length_cons] at h ⊢
  push_cast
  omega

theorem accOk_writeFinish {s : stats} {pr pw pv : List ℚ} (u e' : ℚ)
    (hm : u ∈ pw) (h : accOk s pr pw pv) :
    accOk (s.write_finished u e') pr (pw.erase u) pv := by
  have hlen : (pw.erase u).length = pw.length - 1 := List.length_erase_of_mem hm
  have hpos : 0 < pw.length := List.length_pos.mpr (List.ne_nil_of_mem hm)
  simp only [accOk, stats.write_finished, hlen] at h ⊢
  omega

theorem accOk_waitStart {s : stats} {pr pw pv : List ℚ} (b : ℚ)
    (h : accOk s pr pw pv) : accOk (s.wait_started b) pr pw (b :: pv) := by
  simp only [accOk, stats.wait_started, List.length_cons] at h ⊢
  push_cast
  omega

theorem accOk_waitFinish {s : stats} {pr pw pv : List ℚ} (u e' : ℚ)
    (hm : u ∈ pv) (h : accOk s pr pw pv) :
    accOk (s.wait_finished u e') pr pw (pv.erase u) := by
  have hlen : (pv.erase u).length = pv.length - 1 := List.length_erase_of_mem hm
  have hpos : 0 < pv.length := List.length_pos.mpr (List.ne_nil_of_mem hm)
  simp only [accOk, stats.wait_finished, hlen] at h ⊢
  omega

theorem corr_readStart {off s1 s2 : stats} (sz : ℕ) (b : ℚ)
    (h : Corr off s1 s2) :
    Corr off (s1.read_started sz b) (s2.read_started sz b) := by
  simp only [Corr, stats.read_started] at h ⊢
  obtain ⟨a1, a2, a3, a4, r1, r2, l1, l2, v1, v2, q1, q2, q3, q4, q5, q6,
    q7, b1, b2, b3, b4⟩ := h
  refine ⟨by omega, a2, by omega, a4, r1, r2, l1, l2, by rw [v1]; ring, v2,
    q1, q2, q3, q4, q5, q6, q7, ?_, b2, ?_, b4⟩
  · intro _
    rcases eq_or_ne s2.acc_reads 0 with h0 | h0
    · simp [a1, h0]
    · simp only [a1, if_neg h0]
      exact b1 (by rw [a1]; exact h0)
  · intro _
    rcases eq_or_ne s2.acc_ios 0 with h0 | h0
    · simp [a3, h0]
    · simp only [a3, if_neg h0]
      exact b3 (by rw [a3]; exact h0)

theorem corr_readFinish {off s1 s2 : stats} (u e' : ℚ)
    (hge : 1 ≤ s1.acc_reads) (hgeio : 1 ≤ s1.acc_ios)
    (h : Corr off s1 s2) :
    Corr off (s1.read_finished u e') (s2.read_finished u e') := by
  simp only [Corr, stats.read_finished] at h ⊢
  obtain ⟨a1, a2, a3, a4, r1, r2, l1, l2, v1, v2, q1, q2, q3, q4, q5, q6,
    q7, b1, b2, b3, b4⟩ := h
  refine ⟨by omega, a2, by omega, a4, ?_, r2, ?_, l2, v1, v2,
    by rw [q1]; ring, q2, ?_, q4, ?_, q6, q7,
    fun _ => b1 (by omega), b2, fun _ => b3 (by omega), b4⟩
  · simp only [addU32, U32] at r1 ⊢
    simp only [U32] at l1
    omega
  · simp only [addU32, U32] at l1 ⊢
    omega
  · rcases eq_or_ne (s2.acc_reads - 1) 0 with h0 | h0
    · have h1eq : s1.p_begin_read = s2.p_begin_read := b1 (by omega)
      simp only [a1, if_pos h0, q3, h1eq]
      ring
    · simp only [a1, if_neg h0, q3]
  · rcases eq_or_ne (s2.acc_ios - 1) 0 with h0 | h0
    · have h1eq : s1.p_begin_io = s2.p_begin_io := b3 (by omega)
      simp only [a3, if_pos h0, q5, h1eq]
      ring
    · simp only [a3, if_neg h0, q5]

theorem corr_writeStart {off s1 s2 : stats} (sz : ℕ) (b : ℚ)
    (h : Corr off s1 s2) :
    Corr off (s1.write_started sz b) (s2.write_started sz b) := by
  simp only [Corr, stats.write_started] at h ⊢
  obtain ⟨a1, a2, a3, a4, r1, r2, l1, l2, v1, v2, q1, q2, q3, q4, q5, q6,
    q7, b1, b2, b3, b4⟩ := h
  refine ⟨a1, by omega, by omega, a4, r1, r2, l1, l2, v1, by rw [v2]; ring,
    q1, q2, q3, q4, q5, q6, q7, b1, ?_, ?_, b4⟩
  · intro _
    rcases eq_or_ne s2.acc_writes 0 with h0 | h0
    · simp [a2, h0]
    · simp only [a2, if_neg h0]
      exact b2 (by rw [a2]; exact h0)
  · intro _
    rcases eq_or_ne s2.acc_ios 0 with h0 | h0
    · simp [a3, h0]
    · simp only [a3, if_neg h0]
      exact b3 (by rw [a3]; exact h0)

theorem corr_writeFinish {off s1 s2 : stats} (u e' : ℚ)
    (hge : 1 ≤ s1.acc_writes) (hgeio : 1 ≤ s1.acc_ios)
    (h : Corr off s1 s2) :
    Corr off (s1.write_finished u e') (s2.write_finished u e') := by
  simp only [Corr, stats.write_finished] at h ⊢
  obtain ⟨a1, a2, a3, a4, r1, r2, l1, l2, v1, v2, q1, q2, q3, q4, q5, q6,
    q7, b1, b2, b3, b4⟩ := h
  refine ⟨a1, by omega, by omega, a4, r1, ?_, l1, ?_, v1, v2,
    q1, by rw [q2]; ring, q3, ?_, ?_, q6, q7,
    b1, fun _ => b2 (by omega), fun _ => b3 (by omega), b4⟩
  · simp only [addU32, U32] at r2 ⊢
    simp only [U32] at l2
    omega
  · simp only [addU32, U32] at l2 ⊢
    omega
  · rcases eq_or_ne (s2.acc_writes - 1) 0 with h0 | h0
    · have h1eq : s1.p_begin_write = s2.p_begin_write := b2 (by omega)
      simp only [a2, if_pos h0, q4, h1eq]
      ring
    · simp only [a2, if_neg h0, q4]
  · rcases eq_or_ne (s2.acc_ios - 1) 0 with h0 | h0
    · have h1eq : s1.p_begin_io = s2.p_begin_io := b3 (by omega)
      simp only [a3, if_pos h0, q5, h1eq]
      ring
    · simp only [a3, if_neg h0, q5]

theorem corr_waitStart {off s1 s2 : stats} (b : ℚ)
    (h : Corr off s1 s2) :
    Corr off (s1.wait_started b) (s2.wait_started b) := by
  simp only [Corr, stats.wait_started] at h ⊢
  obtain ⟨a1, a2, a3, a4, r1, r2, l1, l2, v1, v2, q1, q2, q3, q4, q5, q6,
    q7, b1, b2, b3, b4⟩ := h
  refine ⟨a1, a2, a3, by omega, r1, r2, l1, l2, v1, v2,
    q1, q2, q3, q4, q5, q6, q7, b1, b2, b3, ?_⟩
  intro _
  rcases eq_or_ne s2.acc_waits 0 with h0 | h0
  · simp [a4, h0]
  · simp only [a4, if_neg h0]
    exact b4 (by rw [a4]; exact h0)

theorem corr_waitFinish {off s1 s2 : stats} (u e' : ℚ)
    (hge : 1 ≤ s1.acc_waits)
    (h : Corr off s1 s2) :
    Corr off (s1.wait_finished u e') (s2.wait_finished u e') := by
  simp only [Corr, stats.wait_finished] at h ⊢
  obtain ⟨a1, a2, a3, a4, r1, r2, l1, l2, v1, v2, q1, q2, q3, q4, q5, q6,
    q7, b1, b2, b3, b4⟩ := h
  refine ⟨a1, a2, a3, by omega, r1, r2, l1, l2, v1, v2,
    q1, q2, q3, q4, q5, by rw [q6]; ring, ?_,
    b1, b2, b3, fun _ => b4 (by omega)⟩
  rcases eq_or_ne (s2.acc_waits - 1) 0 with h0 | h0
  · have h1eq : s1.p_begin_wait = s2.p_begin_wait := b4 (by omega)
    simp only [a4, if_pos h0, q7, h1eq]
    ring
  · simp only [a4, if_neg h0, q7]

/-- Replaying a well-formed event trace preserves the correspondence
between a continued run and a fresh run. -/
theorem corr_run (off : stats) :
    ∀ (evs : List Event) (τ : ℚ) (pr pw pv : List ℚ) (s1 s2 : stats),
    wfEvents τ pr pw pv evs = true → accOk s1 pr pw pv → Corr off s1 s2 →
    Corr off (runEvents true true s1 evs) (runEvents true true s2 evs) := by
  intro evs
  induction evs with
  | nil =>
      intro τ pr pw pv s1 s2 _ _ hcorr
      exact hcorr
  | cons e rest ih =>
      intro τ pr pw pv s1 s2 hwf hacc hcorr
      cases e with
      | readStart sz b =>
          rw [wfEvents] at hwf
          simp only [Bool.and_eq_true, decide_eq_true_eq] at hwf
          rw [runEvents_cons, runEvents_cons, applyEvent_readStart,
            applyEvent_readStart]
          exact ih b (b :: pr) pw pv _ _ hwf.2
            (accOk_readStart sz b hacc) (corr_readStart sz b hcorr)
      | readFinish u e' =>
          rw [wfEvents] at hwf
          simp only [Bool.and_eq_true, decide_eq_true_eq] at hwf
          obtain ⟨⟨hτ, hm⟩, hwf'⟩ := hwf
          have hpos : 0 < pr.length := List.length_pos.mpr (List.ne_nil_of_mem hm)
          rw [runEvents_cons, runEvents_cons, applyEvent_readFinish,
            applyEvent_readFinish]
          exact ih e' (pr.erase u) pw pv _ _ hwf'
            (accOk_readFinish u e' hm hacc)
            (corr_readFinish u e' (by obtain ⟨x, _, _, _⟩ := hacc; omega)
              (by obtain ⟨_, _, _, x⟩ := hacc; omega) hcorr)
      | writeStart sz b =>
          rw [wfEvents] at hwf
          simp only [Bool.and_eq_true, decide_eq_true_eq] at hwf
          rw [runEvents_cons, runEvents_cons, applyEvent_writeStart,
            applyEvent_writeStart]
          exact ih b pr (b :: pw) pv _ _ hwf.2
            (accOk_writeStart sz b hacc) (corr_writeStart sz b hcorr)
      | writeFinish u e' =>
          rw [wfEvents] at hwf
          simp only [Bool.and_eq_true, decide_eq_true_eq] at hwf
          obtain ⟨⟨hτ, hm⟩, hwf'⟩ := hwf
          have hpos : 0 < pw.length := List.length_pos.mpr (List.ne_nil_of_mem hm)
          rw [runEvents_cons, runEvents_cons, applyEvent_writeFinish,
            applyEvent_writeFinish]
          exact ih e' pr (pw.erase u) pv _ _ hwf'
            (accOk_writeFinish u e' hm hacc)
            (corr_writeFinish u e' (by obtain ⟨_, x, _, _⟩ := hacc; omega)
              (by obtain ⟨_, _, _, x⟩ := hacc; omega) hcorr)
      | waitStart b =>
          rw [wfEvents] at hwf
          simp only [Bool.and_eq_true, decide_eq_true_eq] at hwf
          rw [runEvents_cons, runEvents_cons, applyEvent_waitStart,
            applyEvent_waitStart]
          exact ih b pr pw (b :: pv) _ _ hwf.2
            (accOk_waitStart b hacc) (corr_waitStart b hcorr)
      | waitFinish u e' =>
          rw [wfEvents] at hwf
          simp only [Bool.and_eq_true, decide_eq_true_eq] at hwf
          obtain ⟨⟨hτ, hm⟩, hwf'⟩ := hwf
          have hpos : 0 < pv.length := List.length_pos.mpr (List.ne_nil_of_mem hm)
          rw [runEvents_cons, runEvents_cons, applyEvent_waitFinish,
            applyEvent_waitFinish]
          exact ih e' pr pw (pv.erase u) _ _ hwf'
            (accOk_waitFinish u e' hm hacc)
            (corr_waitFinish u e' (by obtain ⟨_, _, x, _⟩ := hacc; omega) hcorr)

theorem subU32_addU32_cancel (a b : ℕ) (ha : a < U32) (hb : b < U32) :
    subU32 ((a + b) % U32) b = a := by
  simp only [subU32, U32] at *
  omega

theorem addU32_of_lt (a b : ℕ) : addU32 a b = (a + b) % U32 := rfl

/-- C2: for snapshots `A` (at `t1`) and `B` (at `t2 > t1`) of the same
aggregator with no reset in between — `B` being the state after a
well-formed event trace starting from a quiescent `A` — the difference
`B - A` equals, field by field, the snapshot a freshly reset aggregator
(reset at `t1`) would produce from exactly the operations that occurred
strictly between `t1` and `t2`, and `(B - A) + A = B` holds field-wise for
every field of `stats_data`, including `elapsed`. -/
theorem c2_snapshot_algebra (A : stats) (t1 t2 : ℚ) (evs : List Event)
    (hq1 : A.acc_reads = 0) (hq2 : A.acc_writes = 0)
    (hq3 : A.acc_ios = 0) (hq4 : A.acc_waits = 0)
    (hr : A.reads < U32) (hw : A.writes < U32)
    (ht : t1 < t2)
    (hwf : wfEvents t1 [] [] [] evs = true) :
    stats_data.ofStats (runEvents true true A evs) t2 - stats_data.ofStats A t1
      = stats_data.ofStats (runEvents true true (stats.init t1) evs) t2
    ∧ (stats_data.ofStats (runEvents true true A evs) t2 - stats_data.ofStats A t1)
        + stats_data.ofStats A t1
      = stats_data.ofStats (runEvents true true A evs) t2 := by
  have hacc0 : accOk A [] [] [] := by
    simp [accOk, hq1, hq2, hq3, hq4]
  have hcorr0 : Corr A A (stats.init t1) := by
    simp only [Corr, stats.init]
    refine ⟨by simp [hq1], by simp [hq2], by simp [hq3], by simp [hq4],
      by simp [Nat.mod_eq_of_lt hr], by simp [Nat.mod_eq_of_lt hw],
      by simp [U32], by simp [U32], by simp, by simp, by simp, by simp,
      by simp, by simp, by simp, by simp, by simp,
      fun h => absurd hq1 h, fun h => absurd hq2 h,
      fun h => absurd hq3 h, fun h => absurd hq4 h⟩
  have hcorr := corr_run A evs t1 [] [] [] A (stats.init t1) hwf hacc0 hcorr0
  obtain ⟨a1, a2, a3, a4, r1, r2, l1, l2, v1, v2, q1, q2, q3, q4, q5, q6,
    q7, _, _, _, _⟩ := hcorr
  have hlr1 : (runEvents true true A evs).last_reset = A.last_reset :=
    runEvents_last_reset true true A evs
  have hlr2 : (runEvents true true (stats.init t1) evs).last_reset = t1 := by
    rw [runEvents_last_reset]
    rfl
  constructor
  · simp only [stats_data.ofStats, stats_data.sub_def, stats_data.sub,
      stats.get_reads, stats.get_writes, stats.get_read_volume,
      stats.get_written_volume, stats.get_read_time, stats.get_write_time,
      stats.get_pread_time, stats.get_pwrite_time, stats.get_pio_time,
      stats.get_io_wait_time, stats.get_last_reset_time, stats_data.mk.injEq]
    refine ⟨?_, ?_, by rw [v1]; ring, by rw [v2]; ring, by rw [q1]; ring,
      by rw [q2]; ring, by rw [q3]; ring, by rw [q4]; ring, by rw [q5]; ring,
      by rw [q6]; ring, by rw [hlr1, hlr2]; ring⟩
    · rw [r1]
      exact subU32_addU32_cancel _ _ l1 hr
    · rw [r2]
      exact subU32_addU32_cancel _ _ l2 hw
  · simp only [stats_data.ofStats, stats_data.sub_def, stats_data.sub,
      stats_data.add_def, stats_data.add,
      stats.get_reads, stats.get_writes, stats.get_read_volume,
      stats.get_written_volume, stats.get_read_time, stats.get_write_time,
      stats.get_pread_time, stats.get_pwrite_time, stats.get_pio_time,
      stats.get_io_wait_time, stats.get_last_reset_time, stats_data.mk.injEq]
    refine ⟨?_, ?_, by ring, by ring, by ring, by ring, by ring, by ring,
      by ring, by ring, by ring⟩
    · rw [r1, subU32_addU32_cancel _ _ l1 hr, addU32_of_lt]
    · rw [r2, subU32_addU32_cancel _ _ l2 hw, addU32_of_lt]

/-- Witness for `c2_snapshot_algebra`: a quiescent baseline (a fresh
aggregator reset at time 0 that has completed one 8-byte read), a window
containing one 4-byte read between times 2 and 5, and the two snapshots. -/
theorem c2_snapshot_algebra_witness :
    ((runEvents true true (stats.init 0) [.readStart 8 0, .readFinish 0 1]).acc_reads = 0
      ∧ (runEvents true true (stats.init 0) [.readStart 8 0, .readFinish 0 1]).acc_writes = 0
      ∧ (runEvents true true (stats.init 0) [.readStart 8 0, .readFinish 0 1]).acc_ios = 0
      ∧ (runEvents true true (stats.init 0) [.readStart 8 0, .readFinish 0 1]).acc_waits = 0
      ∧ (runEvents true true (stats.init 0) [.readStart 8 0, .readFinish 0 1]).reads < U32
      ∧ (runEvents true true (stats.init 0) [.readStart 8 0, .readFinish 0 1]).writes < U32
      ∧ ((2 : ℚ) < 5)
      ∧ wfEvents 2 [] [] [] [.readStart 4 3, .readFinish 3 4] = true)
    ∧ stats_data.ofStats
        (runEvents true true (runEvents true true (stats.init 0) [.readStart 8 0, .readFinish 0 1])
          [.readStart 4 3, .readFinish 3 4]) 5
        - stats_data.ofStats (runEvents true true (stats.init 0) [.readStart 8 0, .readFinish 0 1]) 2
      = stats_data.ofStats (runEvents true true (stats.init 2) [.readStart 4 3, .readFinish 3 4]) 5 := by
  have hA1 : (runEvents true true (stats.init 0) [.readStart 8 0, .readFinish 0 1]).acc_reads = 0 := by
    norm_num [runEvents, applyEvent, stats.read_started, stats.read_finished, stats.init]
  have hA2 : (runEvents true true (stats.init 0) [.readStart 8 0, .readFinish 0 1]).acc_writes = 0 := by
    norm_num [runEvents, applyEvent, stats.read_started, stats.read_finished, stats.init]
  have hA3 : (runEvents true true (stats.init 0) [.readStart 8 0, .readFinish 0 1]).acc_ios = 0 := by
    norm_num [runEvents, applyEvent, stats.read_started, stats.read_finished, stats.init]
  have hA4 : (runEvents true true (stats.init 0) [.readStart 8 0, .readFinish 0 1]).acc_waits = 0 := by
    norm_num [runEvents, applyEvent, stats.read_started, stats.read_finished, stats.init]
  have hA5 : (runEvents true true (stats.init 0) [.readStart 8 0, .readFinish 0 1]).reads < U32 := by
    norm_num [runEvents, applyEvent, stats.read_started, stats.read_finished, stats.init, addU32, U32]
  have hA6 : (runEvents true true (stats.init 0) [.readStart 8 0, .readFinish 0 1]).writes < U32 := by
    norm_num [runEvents, applyEvent, stats.read_started, stats.read_finished, stats.init, U32]
  have hA7 : (2 : ℚ) < 5 := by norm_num
  have hA8 : wfEvents 2 [] [] [] [.readStart 4 3, .readFinish 3 4] = true := by
    norm_num [wfEvents]
  exact ⟨⟨hA1, hA2, hA3, hA4, hA5, hA6, hA7, hA8⟩,
    (c2_snapshot_algebra _ 2 5 _ hA1 hA2 hA3 hA4 hA5 hA6 hA7 hA8).1⟩

/-- "Virtual" parallel time of one category: the accumulated parallel
duration `p`, plus the currently open busy interval `[pb, τ]` when the
category's pending list is non-empty. -/
def virtP (p pb : ℚ) (pend : List ℚ) (τ : ℚ) : ℚ :=
  if pend = [] then p else p + (τ - pb)

/-- Lower-bound certificate for a category's serial duration: the parallel
time the category would show if its busy interval closed at `τ`, minus the
serial time `τ - u` each pending operation (started at `u ∈ pend`) is
still going to contribute when it finishes at or after `τ`. -/
def slackP (p pb : ℚ) (pend : List ℚ) (τ : ℚ) : ℚ :=
  if pend = [] then p
  else p + (τ - pb) - ((pend.length : ℚ) * τ - pend.sum)

theorem slackP_mono (p pb : ℚ) (pend : List ℚ) {τ τ' : ℚ} (h : τ ≤ τ') :
    slackP p pb pend τ' ≤ slackP p pb pend τ := by
  rcases eq_or_ne pend [] with h0 | h0
  · simp [slackP, h0]
  · have hl : (1 : ℚ) ≤ (pend.length : ℚ) := by
      have := List.length_pos.mpr h0
      exact_mod_cast this
    simp only [slackP, if_neg h0]
    nlinarith [mul_nonneg (sub_nonneg.mpr h) (sub_nonneg.mpr hl)]

/-- The mid-flight invariant of the overlap-accounting algorithm, tying the
aggregator state `s` to the ghost pending lists and the time `τ` of the
last processed event: active counts agree with the pending lists, live
begin timestamps are not in the future, parallel times are non-negative,
each category's serial time dominates its `slackP` certificate, and the
virtual combined parallel time lies between each per-kind virtual time and
their sum. -/
def statsInv (s : stats) (pr pw pv : List ℚ) (τ : ℚ) : Prop :=
  accOk s pr pw pv
  ∧ (pr ≠ [] → s.p_begin_read ≤ τ)
  ∧ (pw ≠ [] → s.p_begin_write ≤ τ)
  ∧ (pr ++ pw ≠ [] → s.p_begin_io ≤ τ)
  ∧ 0 ≤ s.p_reads ∧ 0 ≤ s.p_writes ∧ 0 ≤ s.p_ios
  ∧ slackP s.p_reads s.p_begin_read pr τ ≤ s.t_reads
  ∧ slackP s.p_writes s.p_begin_write pw τ ≤ s.t_writes
  ∧ virtP s.p_reads s.p_begin_read pr τ ≤ virtP s.p_ios s.p_begin_io (pr ++ pw) τ
  ∧ virtP s.p_writes s.p_begin_write pw τ ≤ virtP s.p_ios s.p_begin_io (pr ++ pw) τ
  ∧ virtP s.p_ios s.p_begin_io (pr ++ pw) τ
      ≤ virtP s.p_reads s.p_begin_read pr τ + virtP s.p_writes s.p_begin_write pw τ

/-- Advancing the observation time preserves the three relations between
the per-kind and combined virtual parallel times: the combined busy
interval is open whenever either per-kind one is. -/
theorem virt_triple_advance {pr pw : List ℚ} {p_r pbr p_w pbw p_io pbio τ b : ℚ}
    (hτ : τ ≤ b)
    (h10 : virtP p_r pbr pr τ ≤ virtP p_io pbio (pr ++ pw) τ)
    (h11 : virtP p_w pbw pw τ ≤ virtP p_io pbio (pr ++ pw) τ)
    (h12 : virtP p_io pbio (pr ++ pw) τ ≤ virtP p_r pbr pr τ + virtP p_w pbw pw τ) :
    virtP p_r pbr pr b ≤ virtP p_io pbio (pr ++ pw) b
    ∧ virtP p_w pbw pw b ≤ virtP p_io pbio (pr ++ pw) b
    ∧ virtP p_io pbio (pr ++ pw) b ≤ virtP p_r pbr pr b + virtP p_w pbw pw b := by
  rcases eq_or_ne pr [] with hpr | hpr <;>
    rcases eq_or_ne pw [] with hpw | hpw
  · simp only [virtP, hpr, hpw, List.append_nil, if_pos rfl, if_true] at h10 h11 h12 ⊢
    exact ⟨h10, h11, h12⟩
  · subst hpr
    simp only [virtP, List.nil_append, if_pos rfl, if_true, if_neg hpw] at h10 h11 h12 ⊢
    exact ⟨by linarith, by linarith, by linarith⟩
  · subst hpw
    simp only [virtP, List.append_nil, if_pos rfl, if_true, if_neg hpr] at h10 h11 h12 ⊢
    exact ⟨by linarith, by linarith, by linarith⟩
  · have hio : pr ++ pw ≠ [] := by simp [hpr]
    simp only [virtP, if_neg hpr, if_neg hpw, if_neg hio] at h10 h11 h12 ⊢
    exact ⟨by linarith, by linarith, by linarith⟩

theorem inv_waitStart {s : stats} {pr pw pv : List ℚ} {τ : ℚ} {b : ℚ}
    (hτ : τ ≤ b) (h : statsInv s pr pw pv τ) :
    statsInv (s.wait_started b) pr pw (b :: pv) b := by
  obtain ⟨hacc, h2, h3, h4, h5, h6, h7, h8, h9, h10, h11, h12⟩ := h
  obtain ⟨hd10, hd11, hd12⟩ := virt_triple_advance hτ h10 h11 h12
  exact ⟨accOk_waitStart b hacc,
    fun hpr => le_trans (h2 hpr) hτ,
    fun hpw => le_trans (h3 hpw) hτ,
    fun hio => le_trans (h4 hio) hτ,
    h5, h6, h7,
    le_trans (slackP_mono _ _ _ hτ) h8,
    le_trans (slackP_mono _ _ _ hτ) h9,
    hd10, hd11, hd12⟩

theorem inv_waitFinish {s : stats} {pr pw pv : List ℚ} {τ : ℚ} {u e : ℚ}
    (hτ : τ ≤ e) (hm : u ∈ pv) (h : statsInv s pr pw pv τ) :
    statsInv (s.wait_finished u e) pr pw (pv.erase u) e := by
  obtain ⟨hacc, h2, h3, h4, h5, h6, h7, h8, h9, h10, h11, h12⟩ := h
  obtain ⟨hd10, hd11, hd12⟩ := virt_triple_advance hτ h10 h11 h12
  exact ⟨accOk_waitFinish u e hm hacc,
    fun hpr => le_trans (h2 hpr) hτ,
    fun hpw => le_trans (h3 hpw) hτ,
    fun hio => le_trans (h4 hio) hτ,
    h5, h6, h7,
    le_trans (slackP_mono _ _ _ hτ) h8,
    le_trans (slackP_mono _ _ _ hτ) h9,
    hd10, hd11, hd12⟩

theorem inv_readStart {s : stats} {pr pw pv : List ℚ} {τ : ℚ} (sz : ℕ) {b : ℚ}
    (hτ : τ ≤ b) (h : statsInv s pr pw pv τ) :
    statsInv (s.read_started sz b) (b :: pr) pw pv b := by
  obtain ⟨hacc, h2, h3, h4, h5, h6, h7, h8, h9, h10, h11, h12⟩ := h
  have ha1 := hacc.1
  have ha3 := hacc.2.2.2
  refine ⟨accOk_readStart sz b hacc, ?_, ?_, ?_, ?_, ?_, ?_, ?_, ?_, ?_, ?_, ?_⟩ <;>
    simp only [stats.read_started]
  · intro _
    rcases eq_or_ne pr [] with hpr | hpr
    · have hc : s.acc_reads = 0 := by rw [ha1, hpr]; simp
      rw [if_pos hc]
    · have hc : ¬s.acc_reads = 0 := by
        rw [ha1]
        have := List.length_pos.mpr hpr
        omega
      rw [if_neg hc]
      exact le_trans (h2 hpr) hτ
  · intro hpw
    exact le_trans (h3 hpw) hτ
  · intro _
    rcases eq_or_ne (pr ++ pw) [] with hio | hio
    · obtain ⟨hpr, hpw⟩ := List.append_eq_nil.mp hio
      have hc : s.acc_ios = 0 := by rw [ha3, hpr, hpw]; simp
      rw [if_pos hc]
    · have hc : ¬s.acc_ios = 0 := by
        rw [ha3]
        have := List.length_pos.mpr hio
        rw [List.length_append] at this
        omega
      rw [if_neg hc]
      exact le_trans (h4 hio) hτ
  · exact h5
  · exact h6
  · exact h7
  · rcases eq_or_ne pr [] with hpr | hpr
    · have hc : s.acc_reads = 0 := by rw [ha1, hpr]; simp
      have h8' : s.p_reads ≤ s.t_reads := by simpa [slackP, hpr] using h8
      simp [slackP, hc, hpr]
      try linarith
    · have hc : ¬s.acc_reads = 0 := by
        rw [ha1]
        have := List.length_pos.mpr hpr
        omega
      rw [if_neg hc]
      have heq : slackP s.p_reads s.p_begin_read (b :: pr) b
          = slackP s.p_reads s.p_begin_read pr b := by
        simp only [slackP, List.cons_ne_nil, if_neg hpr, List.length_cons,
          List.sum_cons, ite_false, reduceCtorEq]
        push_cast
        ring
      rw [heq]
      exact le_trans (slackP_mono _ _ _ hτ) h8
  · exact le_trans (slackP_mono _ _ _ hτ) h9
  · rcases eq_or_ne pr [] with hpr | hpr <;> rcases eq_or_ne pw [] with hpw | hpw
    · have hcr : s.acc_reads = 0 := by rw [ha1, hpr]; simp
      have hcio : s.acc_ios = 0 := by rw [ha3, hpr, hpw]; simp
      subst hpr; subst hpw
      simp [virtP, hcr, hcio] at h10 ⊢
      linarith
    · have hcr : s.acc_reads = 0 := by rw [ha1, hpr]; simp
      have hcio : ¬s.acc_ios = 0 := by
        rw [ha3, hpr]
        simp only [List.length_nil, Nat.cast_zero, zero_add]
        have := List.length_pos.mpr hpw
        omega
      subst hpr
      simp [virtP, hpw, hcr, hcio] at h10 ⊢
      linarith
    · have hcr : ¬s.acc_reads = 0 := by
        rw [ha1]
        have := List.length_pos.mpr hpr
        omega
      have hcio : ¬s.acc_ios = 0 := by
        rw [ha3]
        have := List.length_pos.mpr hpr
        omega
      subst hpw
      simp [virtP, hpr, hcr, hcio] at h10 ⊢
      linarith
    · have hcr : ¬s.acc_reads = 0 := by
        rw [ha1]
        have := List.length_pos.mpr hpr
        omega
      have hcio : ¬s.acc_ios = 0 := by
        rw [ha3]
        have := List.length_pos.mpr hpr
        omega
      simp [virtP, hpr, hpw, hcr, hcio] at h10 ⊢
      linarith
  · rcases eq_or_ne pr [] with hpr | hpr <;> rcases eq_or_ne pw [] with hpw | hpw
    · have hcio : s.acc_ios = 0 := by rw [ha3, hpr, hpw]; simp
      subst hpr; subst hpw
      simp [virtP, hcio] at h11 ⊢
      linarith
    · have hcio : ¬s.acc_ios = 0 := by
        rw [ha3, hpr]
        simp only [List.length_nil, Nat.cast_zero, zero_add]
        have := List.length_pos.mpr hpw
        omega
      subst hpr
      simp [virtP, hpw, hcio] at h11 ⊢
      linarith
    · have hcio : ¬s.acc_ios = 0 := by
        rw [ha3]
        have := List.length_pos.mpr hpr
        omega
      subst hpw
      simp [virtP, hpr, hcio] at h11 ⊢
      linarith
    · have hcio : ¬s.acc_ios = 0 := by
        rw [ha3]
        have := List.length_pos.mpr hpr
        omega
      simp [virtP, hpr, hpw, hcio] at h11 ⊢
      linarith
  · rcases eq_or_ne pr [] with hpr | hpr <;> rcases eq_or_ne pw [] with hpw | hpw
    · have hcr : s.acc_reads = 0 := by rw [ha1, hpr]; simp
      have hcio : s.acc_ios = 0 := by rw [ha3, hpr, hpw]; simp
      subst hpr; subst hpw
      simp [virtP, hcr, hcio] at h12 ⊢
      linarith
    · have hcr : s.acc_reads = 0 := by rw [ha1, hpr]; simp
      have hcio : ¬s.acc_ios = 0 := by
        rw [ha3, hpr]
        simp only [List.length_nil, Nat.cast_zero, zero_add]
        have := List.length_pos.mpr hpw
        omega
      subst hpr
      simp [virtP, hpw, hcr, hcio] at h12 ⊢
      linarith
    · have hcr : ¬s.acc_reads = 0 := by
        rw [ha1]
        have := List.length_pos.mpr hpr
        omega
      have hcio : ¬s.acc_ios = 0 := by
        rw [ha3]
        have := List.length_pos.mpr hpr
        omega
      subst hpw
      simp [virtP, hpr, hcr, hcio] at h12 ⊢
      linarith
    · have hcr : ¬s.acc_reads = 0 := by
        rw [ha1]
        have := List.length_pos.mpr hpr
        omega
      have hcio : ¬s.acc_ios = 0 := by
        rw [ha3]
        have := List.length_pos.mpr hpr
        omega
      simp [virtP, hpr, hpw, hcr, hcio] at h12 ⊢
      linarith

theorem inv_writeStart {s : stats} {pr pw pv : List ℚ} {τ : ℚ} (sz : ℕ) {b : ℚ}
    (hτ : τ ≤ b) (h : statsInv s pr pw pv τ) :
    statsInv (s.write_started sz b) pr (b :: pw) pv b := by
  obtain ⟨hacc, h2, h3, h4, h5, h6, h7, h8, h9, h10, h11, h12⟩ := h
  have ha2 := hacc.2.1
  have ha3 := hacc.2.2.2
  refine ⟨accOk_writeStart sz b hacc, ?_, ?_, ?_, ?_, ?_, ?_, ?_, ?_, ?_, ?_, ?_⟩ <;>
    simp only [stats.write_started]
  · intro hpr
    exact le_trans (h2 hpr) hτ
  · intro _
    rcases eq_or_ne pw [] with hpw | hpw
    · have hc : s.acc_writes = 0 := by rw [ha2, hpw]; simp
      rw [if_pos hc]
    · have hc : ¬s.acc_writes = 0 := by
        rw [ha2]
        have := List.length_pos.mpr hpw
        omega
      rw [if_neg hc]
      exact le_trans (h3 hpw) hτ
  · intro _
    rcases eq_or_ne pr [] with hpr | hpr <;> rcases eq_or_ne pw [] with hpw | hpw
    · have hc : s.acc_ios = 0 := by rw [ha3, hpr, hpw]; simp
      rw [if_pos hc]
    · have hc : ¬s.acc_ios = 0 := by
        rw [ha3, hpr]
        simp only [List.length_nil, Nat.cast_zero, zero_add]
        have := List.length_pos.mpr hpw
        omega
      rw [if_neg hc]
      exact le_trans (h4 (by simp [hpw])) hτ
    · have hc : ¬s.acc_ios = 0 := by
        rw [ha3]
        have := List.length_pos.mpr hpr
        omega
      rw [if_neg hc]
      exact le_trans (h4 (by simp [hpr])) hτ
    · have hc : ¬s.acc_ios = 0 := by
        rw [ha3]
        have := List.length_pos.mpr hpr
        omega
      rw [if_neg hc]
      exact le_trans (h4 (by simp [hpr])) hτ
  · exact h5
  · exact h6
  · exact h7
  · exact le_trans (slackP_mono _ _ _ hτ) h8
  · rcases eq_or_ne pw [] with hpw | hpw
    · have hc : s.acc_writes = 0 := by rw [ha2, hpw]; simp
      have h9' : s.p_writes ≤ s.t_writes := by simpa [slackP, hpw] using h9
      simp [slackP, hc, hpw]
      try linarith
    · have hc : ¬s.acc_writes = 0 := by
        rw [ha2]
        have := List.length_pos.mpr hpw
        omega
      rw [if_neg hc]
      have heq : slackP s.p_writes s.p_begin_write (b :: pw) b
          = slackP s.p_writes s.p_begin_write pw b := by
        simp only [slackP, List.cons_ne_nil, if_neg hpw, List.length_cons,
          List.sum_cons, ite_false, reduceCtorEq]
        push_cast
        ring
      rw [heq]
      exact le_trans (slackP_mono _ _ _ hτ) h9
  · rcases eq_or_ne pr [] with hpr | hpr <;> rcases eq_or_ne pw [] with hpw | hpw
    · have hcw : s.acc_writes = 0 := by rw [ha2, hpw]; simp
      have hcio : s.acc_ios = 0 := by rw [ha3, hpr, hpw]; simp
      subst hpr; subst hpw
      simp [virtP, hcw, hcio] at h10 ⊢
      linarith
    · have hcw : ¬s.acc_writes = 0 := by
        rw [ha2]
        have := List.length_pos.mpr hpw
        omega
      have hcio : ¬s.acc_ios = 0 := by
        rw [ha3, hpr]
        simp only [List.length_nil, Nat.cast_zero, zero_add]
        have := List.length_pos.mpr hpw
        omega
      subst hpr
      simp [virtP, hpw, hcw, hcio] at h10 ⊢
      linarith
    · have hcw : s.acc_writes = 0 := by rw [ha2, hpw]; simp
      have hcio : ¬s.acc_ios = 0 := by
        rw [ha3]
        have := List.length_pos.mpr hpr
        omega
      subst hpw
      simp [virtP, hpr, hcw, hcio] at h10 ⊢
      linarith
    · have hcw : ¬s.acc_writes = 0 := by
        rw [ha2]
        have := List.length_pos.mpr hpw
        omega
      have hcio : ¬s.acc_ios = 0 := by
        rw [ha3]
        have := List.length_pos.mpr hpr
        omega
      simp [virtP, hpr, hpw, hcw, hcio] at h10 ⊢
      linarith
  · rcases eq_or_ne pr [] with hpr | hpr <;> rcases eq_or_ne pw [] with hpw | hpw
    · have hcw : s.acc_writes = 0 := by rw [ha2, hpw]; simp
      have hcio : s.acc_ios = 0 := by rw [ha3, hpr, hpw]; simp
      subst hpr; subst hpw
      simp [virtP, hcw, hcio] at h11 ⊢
      linarith
    · have hcw : ¬s.acc_writes = 0 := by
        rw [ha2]
        have := List.length_pos.mpr hpw
        omega
      have hcio : ¬s.acc_ios = 0 := by
        rw [ha3, hpr]
        simp only [List.length_nil, Nat.cast_zero, zero_add]
        have := List.length_pos.mpr hpw
        omega
      subst hpr
      simp [virtP, hpw, hcw, hcio] at h11 ⊢
      linarith
    · have hcw : s.acc_writes = 0 := by rw [ha2, hpw]; simp
      have hcio : ¬s.acc_ios = 0 := by
        rw [ha3]
        have := List.length_pos.mpr hpr
        omega
      subst hpw
      simp [virtP, hpr, hcw, hcio] at h11 ⊢
      linarith
    · have hcw : ¬s.acc_writes = 0 := by
        rw [ha2]
        have := List.length_pos.mpr hpw
        omega
      have hcio : ¬s.acc_ios = 0 := by
        rw [ha3]
        have := List.length_pos.mpr hpr
        omega
      simp [virtP, hpr, hpw, hcw, hcio] at h11 ⊢
      linarith
  · rcases eq_or_ne pr [] with hpr | hpr <;> rcases eq_or_ne pw [] with hpw | hpw
    · have hcw : s.acc_writes = 0 := by rw [ha2, hpw]; simp
      have hcio : s.acc_ios = 0 := by rw [ha3, hpr, hpw]; simp
      subst hpr; subst hpw
      simp [virtP, hcw, hcio] at h12 ⊢
      linarith
    · have hcw : ¬s.acc_writes = 0 := by
        rw [ha2]
        have := List.length_pos.mpr hpw
        omega
      have hcio : ¬s.acc_ios = 0 := by
        rw [ha3, hpr]
        simp only [List.length_nil, Nat.cast_zero, zero_add]
        have := List.length_pos.mpr hpw
        omega
      subst hpr
      simp [virtP, hpw, hcw, hcio] at h12 ⊢
      linarith
    · have hcw : s.acc_writes = 0 := by rw [ha2, hpw]; simp
      have hcio : ¬s.acc_ios = 0 := by
        rw [ha3]
        have := List.length_pos.mpr hpr
        omega
      subst hpw
      simp [virtP, hpr, hcw, hcio] at h12 ⊢
      linarith
    · have hcw : ¬s.acc_writes = 0 := by
        rw [ha2]
        have := List.length_pos.mpr hpw
        omega
      have hcio : ¬s.acc_ios = 0 := by
        rw [ha3]
        have := List.length_pos.mpr hpr
        omega
      simp [virtP, hpr, hpw, hcw, hcio] at h12 ⊢
      linarith

theorem inv_readFinish {s : stats} {pr pw pv : List ℚ} {τ : ℚ} {u e : ℚ}
    (hτ : τ ≤ e) (hm : u ∈ pr) (h : statsInv s pr pw pv τ) :
    statsInv (s.read_finished u e) (pr.erase u) pw pv e := by
  obtain ⟨hacc, h2, h3, h4, h5, h6, h7, h8, h9, h10, h11, h12⟩ := h
  have ha1 := hacc.1
  have ha3 := hacc.2.2.2
  have hpr : pr ≠ [] := List.ne_nil_of_mem hm
  have hlpos : 0 < pr.length := List.length_pos.mpr hpr
  have hio : pr ++ pw ≠ [] := by simp [hpr]
  have hbr : s.p_begin_read ≤ τ := h2 hpr
  have hbio : s.p_begin_io ≤ τ := h4 hio
  have hlen : (pr.erase u).length = pr.length - 1 := List.length_erase_of_mem hm
  have hsum : u + (pr.erase u).sum = pr.sum := List.sum_erase hm
  have hcr_yes : pr.erase u = [] → s.acc_reads - 1 = 0 := by
    intro hpe
    have hl1 : pr.length = 1 := by
      rw [hpe] at hlen
      simp only [List.length_nil] at hlen
      omega
    rw [ha1, hl1]
    norm_num
  have hcr_no : pr.erase u ≠ [] → ¬(s.acc_reads - 1 = 0) := by
    intro hpe
    have := List.length_pos.mpr hpe
    rw [ha1]
    omega
  have hcio_yes : pr.erase u = [] → pw = [] → s.acc_ios - 1 = 0 := by
    intro hpe hpw
    have hl1 : pr.length = 1 := by
      rw [hpe] at hlen
      simp only [List.length_nil] at hlen
      omega
    rw [ha3, hl1, hpw]
    norm_num
  have hcio_no1 : pr.erase u ≠ [] → ¬(s.acc_ios - 1 = 0) := by
    intro hpe
    have := List.length_pos.mpr hpe
    rw [ha3]
    omega
  have hcio_no2 : pw ≠ [] → ¬(s.acc_ios - 1 = 0) := by
    intro hpw
    have := List.length_pos.mpr hpw
    rw [ha3]
    omega
  obtain ⟨hd10, hd11, hd12⟩ := virt_triple_advance hτ h10 h11 h12
  simp only [virtP, if_neg hpr, if_neg hio] at hd10 hd11 hd12
  refine ⟨accOk_readFinish u e hm hacc, ?_, ?_, ?_, ?_, ?_, ?_, ?_, ?_, ?_, ?_, ?_⟩ <;>
    simp only [stats.read_finished]
  · intro _
    exact le_trans hbr hτ
  · intro hpw
    exact le_trans (h3 hpw) hτ
  · intro _
    exact le_trans hbio hτ
  · rcases eq_or_ne (s.acc_reads - 1) 0 with hc | hc
    · rw [if_pos hc]
      linarith
    · rw [if_neg hc]
      exact h5
  · exact h6
  · rcases eq_or_ne (s.acc_ios - 1) 0 with hc | hc
    · rw [if_pos hc]
      linarith
    · rw [if_neg hc]
      exact h7
  · have h8e : slackP s.p_reads s.p_begin_read pr e ≤ s.t_reads :=
      le_trans (slackP_mono _ _ _ hτ) h8
    simp only [slackP, if_neg hpr] at h8e
    rcases eq_or_ne (pr.erase u) [] with hpe | hpe
    · have hl1 : pr.length = 1 := by
        rw [hpe] at hlen
        simp only [List.length_nil] at hlen
        omega
      have hs : pr.sum = u := by
        rw [hpe] at hsum
        simpa using hsum.symm
      rw [if_pos (hcr_yes hpe), hpe]
      simp only [slackP, if_pos rfl, if_true]
      rw [hl1, hs] at h8e
      push_cast at h8e
      linarith
    · rw [if_neg (hcr_no hpe)]
      simp only [slackP, if_neg hpe]
      have hl2 : 2 ≤ pr.length := by
        have := List.length_pos.mpr hpe
        omega
      have hL : ((pr.erase u).length : ℚ) = (pr.length : ℚ) - 1 := by
        rw [hlen]
        push_cast [Nat.cast_sub (by omega : 1 ≤ pr.length)]
        ring
      have hS : (pr.erase u).sum = pr.sum - u := by linarith
      rw [hL, hS]
      linarith
  · exact le_trans (slackP_mono _ _ _ hτ) h9
  · rcases eq_or_ne (pr.erase u) [] with hpe | hpe <;>
      rcases eq_or_ne pw [] with hpw | hpw
    · simp [hpw] at hd11 hd12
      simp [virtP, hpe, hpw, hcr_yes hpe, hcio_yes hpe hpw]
      linarith
    · simp [hpw] at hd11 hd12
      simp [virtP, hpe, hpw, hcr_yes hpe, hcio_no2 hpw]
      linarith
    · simp [hpw] at hd11 hd12
      simp [virtP, hpe, hpw, hcr_no hpe, hcio_no1 hpe]
      linarith
    · simp [hpw] at hd11 hd12
      simp [virtP, hpe, hpw, hcr_no hpe, hcio_no1 hpe]
      linarith
  · rcases eq_or_ne (pr.erase u) [] with hpe | hpe <;>
      rcases eq_or_ne pw [] with hpw | hpw
    · simp [hpw] at hd11 hd12
      simp [virtP, hpe, hpw, hcio_yes hpe hpw]
      linarith
    · simp [hpw] at hd11 hd12
      simp [virtP, hpe, hpw, hcio_no2 hpw]
      linarith
    · simp [hpw] at hd11 hd12
      simp [virtP, hpe, hpw, hcio_no1 hpe]
      linarith
    · simp [hpw] at hd11 hd12
      simp [virtP, hpe, hpw, hcio_no1 hpe]
      linarith
  · rcases eq_or_ne (pr.erase u) [] with hpe | hpe <;>
      rcases eq_or_ne pw [] with hpw | hpw
    · simp [hpw] at hd11 hd12
      simp [virtP, hpe, hpw, hcr_yes hpe, hcio_yes hpe hpw]
      linarith
    · simp [hpw] at hd11 hd12
      simp [virtP, hpe, hpw, hcr_yes hpe, hcio_no2 hpw]
      linarith
    · simp [hpw] at hd11 hd12
      simp [virtP, hpe, hpw, hcr_no hpe, hcio_no1 hpe]
      linarith
    · simp [hpw] at hd11 hd12
      simp [virtP, hpe, hpw, hcr_no hpe, hcio_no1 hpe]
      linarith

theorem inv_writeFinish {s : stats} {pr pw pv : List ℚ} {τ : ℚ} {u e : ℚ}
    (hτ : τ ≤ e) (hm : u ∈ pw) (h : statsInv s pr pw pv τ) :
    statsInv (s.write_finished u e) pr (pw.erase u) pv e := by
  obtain ⟨hacc, h2, h3, h4, h5, h6, h7, h8, h9, h10, h11, h12⟩ := h
  have ha2 := hacc.2.1
  have ha3 := hacc.2.2.2
  have hpw : pw ≠ [] := List.ne_nil_of_mem hm
  have hlpos : 0 < pw.length := List.length_pos.mpr hpw
  have hio : pr ++ pw ≠ [] := by simp [hpw]
  have hbw : s.p_begin_write ≤ τ := h3 hpw
  have hbio : s.p_begin_io ≤ τ := h4 hio
  have hlen : (pw.erase u).length = pw.length - 1 := List.length_erase_of_mem hm
  have hsum : u + (pw.erase u).sum = pw.sum := List.sum_erase hm
  have hcw_yes : pw.erase u = [] → s.acc_writes - 1 = 0 := by
    intro hpe
    have hl1 : pw.length = 1 := by
      rw [hpe] at hlen
      simp only [List.length_nil] at hlen
      omega
    rw [ha2, hl1]
    norm_num
  have hcw_no : pw.erase u ≠ [] → ¬(s.acc_writes - 1 = 0) := by
    intro hpe
    have := List.length_pos.mpr hpe
    rw [ha2]
    omega
  have hcio_yes : pw.erase u = [] → pr = [] → s.acc_ios - 1 = 0 := by
    intro hpe hpr
    have hl1 : pw.length = 1 := by
      rw [hpe] at hlen
      simp only [List.length_nil] at hlen
      omega
    rw [ha3, hl1, hpr]
    norm_num
  have hcio_no1 : pw.erase u ≠ [] → ¬(s.acc_ios - 1 = 0) := by
    intro hpe
    have := List.length_pos.mpr hpe
    rw [ha3]
    omega
  have hcio_no2 : pr ≠ [] → ¬(s.acc_ios - 1 = 0) := by
    intro hpr
    have := List.length_pos.mpr hpr
    rw [ha3]
    omega
  obtain ⟨hd10, hd11, hd12⟩ := virt_triple_advance hτ h10 h11 h12
  simp only [virtP, if_neg hpw, if_neg hio] at hd10 hd11 hd12
  refine ⟨accOk_writeFinish u e hm hacc, ?_, ?_, ?_, ?_, ?_, ?_, ?_, ?_, ?_, ?_, ?_⟩ <;>
    simp only [stats.write_finished]
  · intro hpr
    exact le_trans (h2 hpr) hτ
  · intro _
    exact le_trans hbw hτ
  · intro _
    exact le_trans hbio hτ
  · exact h5
  · rcases eq_or_ne (s.acc_writes - 1) 0 with hc | hc
    · rw [if_pos hc]
      linarith
    · rw [if_neg hc]
      exact h6
  · rcases eq_or_ne (s.acc_ios - 1) 0 with hc | hc
    · rw [if_pos hc]
      linarith
    · rw [if_neg hc]
      exact h7
  · exact le_trans (slackP_mono _ _ _ hτ) h8
  · have h9e : slackP s.p_writes s.p_begin_write pw e ≤ s.t_writes :=
      le_trans (slackP_mono _ _ _ hτ) h9
    simp only [slackP, if_neg hpw] at h9e
    rcases eq_or_ne (pw.erase u) [] with hpe | hpe
    · have hl1 : pw.length = 1 := by
        rw [hpe] at hlen
        simp only [List.length_nil] at hlen
        omega
      have hs : pw.sum = u := by
        rw [hpe] at hsum
        simpa using hsum.symm
      rw [if_pos (hcw_yes hpe), hpe]
      simp only [slackP, if_pos rfl, if_true]
      rw [hl1, hs] at h9e
      push_cast at h9e
      linarith
    · rw [if_neg (hcw_no hpe)]
      simp only [slackP, if_neg hpe]
      have hl2 : 2 ≤ pw.length := by
        have := List.length_pos.mpr hpe
        omega
      have hL : ((pw.erase u).length : ℚ) = (pw.length : ℚ) - 1 := by
        rw [hlen]
        push_cast [Nat.cast_sub (by omega : 1 ≤ pw.length)]
        ring
      have hS : (pw.erase u).sum = pw.sum - u := by linarith
      rw [hL, hS]
      linarith
  · rcases eq_or_ne (pw.erase u) [] with hpe | hpe <;>
      rcases eq_or_ne pr [] with hpr | hpr
    · simp [hpr] at hd10 hd12
      simp [virtP, hpe, hpr, hcio_yes hpe hpr]
      linarith
    · simp [hpr] at hd10 hd12
      simp [virtP, hpe, hpr, hcio_no2 hpr]
      linarith
    · simp [hpr] at hd10 hd12
      simp [virtP, hpe, hpr, hcio_no1 hpe]
      linarith
    · simp [hpr] at hd10 hd12
      simp [virtP, hpe, hpr, hcio_no1 hpe]
      linarith
  · rcases eq_or_ne (pw.erase u) [] with hpe | hpe <;>
      rcases eq_or_ne pr [] with hpr | hpr
    · simp [hpr] at hd10 hd12
      simp [virtP, hpe, hpr, hcw_yes hpe, hcio_yes hpe hpr]
      linarith
    · simp [hpr] at hd10 hd12
      simp [virtP, hpe, hpr, hcw_yes hpe, hcio_no2 hpr]
      linarith
    · simp [hpr] at hd10 hd12
      simp [virtP, hpe, hpr, hcw_no hpe, hcio_no1 hpe]
      linarith
    · simp [hpr] at hd10 hd12
      simp [virtP, hpe, hpr, hcw_no hpe, hcio_no1 hpe]
      linarith
  · rcases eq_or_ne (pw.erase u) [] with hpe | hpe <;>
      rcases eq_or_ne pr [] with hpr | hpr
    · simp [hpr] at hd10 hd12
      simp [virtP, hpe, hpr, hcw_yes hpe, hcio_yes hpe hpr]
      linarith
    · simp [hpr] at hd10 hd12
      simp [virtP, hpe, hpr, hcw_yes hpe, hcio_no2 hpr]
      linarith
    · simp [hpr] at hd10 hd12
      simp [virtP, hpe, hpr, hcw_no hpe, hcio_no1 hpe]
      linarith
    · simp [hpr] at hd10 hd12
      simp [virtP, hpe, hpr, hcw_no hpe, hcio_no1 hpe]
      linarith

/-- The freshly initialized (or reset) aggregator satisfies the invariant
with empty pending lists. -/
theorem statsInv_init (t : ℚ) : statsInv (stats.init t) [] [] [] t := by
  simp [statsInv, accOk, stats.init, slackP, virtP]

/-- Running any well-formed trace from an invariant state lands in an
invariant state (with some updated ghost pending lists and event time). -/
theorem statsInv_run :
    ∀ (evs : List Event) (τ : ℚ) (pr pw pv : List ℚ) (s : stats),
    wfEvents τ pr pw pv evs = true → statsInv s pr pw pv τ →
    ∃ (τ' : ℚ) (pr' pw' pv' : List ℚ),
      statsInv (runEvents true true s evs) pr' pw' pv' τ' := by
  intro evs
  induction evs with
  | nil =>
      intro τ pr pw pv s _ h
      exact ⟨τ, pr, pw, pv, h⟩
  | cons e rest ih =>
      intro τ pr pw pv s hwf h
      cases e with
      | readStart sz b =>
          rw [wfEvents] at hwf
          simp only [Bool.and_eq_true, decide_eq_true_eq] at hwf
          rw [runEvents_cons, applyEvent_readStart]
          exact ih b (b :: pr) pw pv _ hwf.2 (inv_readStart sz hwf.1 h)
      | readFinish u e' =>
          rw [wfEvents] at hwf
          simp only [Bool.and_eq_true, decide_eq_true_eq] at hwf
          obtain ⟨⟨hτ, hm⟩, hwf'⟩ := hwf
          rw [runEvents_cons, applyEvent_readFinish]
          exact ih e' (pr.erase u) pw pv _ hwf' (inv_readFinish hτ hm h)
      | writeStart sz b =>
          rw [wfEvents] at hwf
          simp only [Bool.and_eq_true, decide_eq_true_eq] at hwf
          rw [runEvents_cons, applyEvent_writeStart]
          exact ih b pr (b :: pw) pv _ hwf.2 (inv_writeStart sz hwf.1 h)
      | writeFinish u e' =>
          rw [wfEvents] at hwf
          simp only [Bool.and_eq_true, decide_eq_true_eq] at hwf
          obtain ⟨⟨hτ, hm⟩, hwf'⟩ := hwf
          rw [runEvents_cons, applyEvent_writeFinish]
          exact ih e' pr (pw.erase u) pv _ hwf' (inv_writeFinish hτ hm h)
      | waitStart b =>
          rw [wfEvents] at hwf
          simp only [Bool.and_eq_true, decide_eq_true_eq] at hwf
          rw [runEvents_cons, applyEvent_waitStart]
          exact ih b pr pw (b :: pv) _ hwf.2 (inv_waitStart hwf.1 h)
      | waitFinish u e' =>
          rw [wfEvents] at hwf
          simp only [Bool.and_eq_true, decide_eq_true_eq] at hwf
          obtain ⟨⟨hτ, hm⟩, hwf'⟩ := hwf
          rw [runEvents_cons, applyEvent_waitFinish]
          exact ih e' pr pw (pv.erase u) _ hwf' (inv_waitFinish hτ hm h)

/-- C5: after any well-formed trace of matched started/finished events that
leaves no operation in flight (all `acc_*` active counts zero), the
aggregator state satisfies `t_reads ≥ p_reads ≥ 0`,
`t_writes ≥ p_writes ≥ 0`, and
`max p_reads p_writes ≤ p_ios ≤ p_reads + p_writes`. -/
theorem c5_quiescent_invariant (evs : List Event) (t : ℚ)
    (hwf : wfEvents t [] [] [] evs = true)
    (hq1 : (runEvents true true (stats.init t) evs).acc_reads = 0)
    (hq2 : (runEvents true true (stats.init t) evs).acc_writes = 0)
    (hq3 : (runEvents true true (stats.init t) evs).acc_ios = 0)
    (hq4 : (runEvents true true (stats.init t) evs).acc_waits = 0) :
    0 ≤ (runEvents true true (stats.init t) evs).p_reads
    ∧ (runEvents true true (stats.init t) evs).p_reads
        ≤ (runEvents true true (stats.init t) evs).t_reads
    ∧ 0 ≤ (runEvents true true (stats.init t) evs).p_writes
    ∧ (runEvents true true (stats.init t) evs).p_writes
        ≤ (runEvents true true (stats.init t) evs).t_writes
    ∧ max (runEvents true true (stats.init t) evs).p_reads
        (runEvents true true (stats.init t) evs).p_writes
        ≤ (runEvents true true (stats.init t) evs).p_ios
    ∧ (runEvents true true (stats.init t) evs).p_ios
        ≤ (runEvents true true (stats.init t) evs).p_reads
          + (runEvents true true (stats.init t) evs).p_writes := by
  obtain ⟨τ', pr', pw', pv', hinv⟩ :=
    statsInv_run evs t [] [] [] _ hwf (statsInv_init t)
  obtain ⟨hacc, h2, h3, h4, h5, h6, h7, h8, h9, h10, h11, h12⟩ := hinv
  have hpr : pr' = [] := by
    have hx := hacc.1
    rw [hq1] at hx
    have : pr'.length = 0 := by omega
    exact List.length_eq_zero.mp this
  have hpw : pw' = [] := by
    have hx := hacc.2.1
    rw [hq2] at hx
    have : pw'.length = 0 := by omega
    exact List.length_eq_zero.mp this
  subst hpr
  subst hpw
  simp only [slackP, virtP, List.append_nil, if_pos rfl, if_true] at h8 h9 h10 h11 h12
  exact ⟨h5, h8, h6, h9, max_le h10 h11, h12⟩

/-- Witness for `c5_quiescent_invariant`: one read of duration 1 followed
by one fully-overlapped write window, ending quiescent. -/
theorem c5_quiescent_invariant_witness :
    (wfEvents 0 [] [] []
        [.readStart 4 1, .writeStart 2 1, .writeFinish 1 2, .readFinish 1 3] = true
      ∧ (runEvents true true (stats.init 0)
          [.readStart 4 1, .writeStart 2 1, .writeFinish 1 2, .readFinish 1 3]).acc_reads = 0
      ∧ (runEvents true true (stats.init 0)
          [.readStart 4 1, .writeStart 2 1, .writeFinish 1 2, .readFinish 1 3]).acc_writes = 0
      ∧ (runEvents true true (stats.init 0)
          [.readStart 4 1, .writeStart 2 1, .writeFinish 1 2, .readFinish 1 3]).acc_ios = 0
      ∧ (runEvents true true (stats.init 0)
          [.readStart 4 1, .writeStart 2 1, .writeFinish 1 2, .readFinish 1 3]).acc_waits = 0)
    ∧ (runEvents true true (stats.init 0)
        [.readStart 4 1, .writeStart 2 1, .writeFinish 1 2, .readFinish 1 3]).p_ios
      ≤ (runEvents true true (stats.init 0)
          [.readStart 4 1, .writeStart 2 1, .writeFinish 1 2, .readFinish 1 3]).p_reads
        + (runEvents true true (stats.init 0)
            [.readStart 4 1, .writeStart 2 1, .writeFinish 1 2, .readFinish 1 3]).p_writes := by
  have hwf : wfEvents 0 [] [] []
      [.readStart 4 1, .writeStart 2 1, .writeFinish 1 2, .readFinish 1 3] = true := by
    norm_num [wfEvents]
  have hq1 : (runEvents true true (stats.init 0)
      [.readStart 4 1, .writeStart 2 1, .writeFinish 1 2, .readFinish 1 3]).acc_reads = 0 := by
    norm_num [runEvents, applyEvent, stats.read_started, stats.read_finished,
      stats.write_started, stats.write_finished, stats.init]
  have hq2 : (runEvents true true (stats.init 0)
      [.readStart 4 1, .writeStart 2 1, .writeFinish 1 2, .readFinish 1 3]).acc_writes = 0 := by
    norm_num [runEvents, applyEvent, stats.read_started, stats.read_finished,
      stats.write_started, stats.write_finished, stats.init]
  have hq3 : (runEvents true true (stats.init 0)
      [.readStart 4 1, .writeStart 2 1, .writeFinish 1 2, .readFinish 1 3]).acc_ios = 0 := by
    norm_num [runEvents, applyEvent, stats.read_started, stats.read_finished,
      stats.write_started, stats.write_finished, stats.init]
  have hq4 : (runEvents true true (stats.init 0)
      [.readStart 4 1, .writeStart 2 1, .writeFinish 1 2, .readFinish 1 3]).acc_waits = 0 := by
    norm_num [runEvents, applyEvent, stats.read_started, stats.read_finished,
      stats.write_started, stats.write_finished, stats.init]
  exact ⟨⟨hwf, hq1, hq2, hq3, hq4⟩,
    (c5_quiescent_invariant _ 0 hwf hq1 hq2 hq3 hq4).2.2.2.2.2⟩
